import Mathlib

/-!
Shallow embedding of the incremental enrichment engine of
`src/update_data.py` (class `AirportDataUpdater`).

JSON-like dynamic values are modelled by the mutual inductive `Val`;
Python dictionaries by association lists with first-occurrence lookup and
in-place overwrite, which coincides with `dict` semantics because every
dictionary the program builds has pairwise distinct keys.  The two HTTP
providers (airportdb.io and aviationweather.gov) are modelled as oracles
`Val → Option Val`: `none` is any transport failure (network error,
non-2xx status via `raise_for_status`, malformed JSON body), `some v` is
a successfully parsed JSON value `v`.  The pandas DataFrame is modelled
by `Table`: a list of column names plus rows with one optional cell per
recognized column (`none` = missing/NaN).
-/

mutual

/-- JSON-like Python values (strings, numbers, booleans, lists, dicts).
Numbers are modelled by a single integer type; the program's only numeric
coercion (`float(value)` for `elevation_ft`) is value-preserving on them. -/
inductive Val where
  | str : String → Val
  | num : Int → Val
  | vbool : Bool → Val
  | arr : ValList → Val
  | obj : ObjList → Val
deriving DecidableEq, Repr

inductive ValList where
  | nil : ValList
  | cons : Val → ValList → ValList
deriving DecidableEq, Repr

inductive ObjList where
  | nil : ObjList
  | cons : String → Val → ObjList → ObjList
deriving DecidableEq, Repr

end

/-- The field list of a JSON object, as a Lean association list. -/
def ObjList.toList : ObjList → List (String × Val)
  | .nil => []
  | .cons k v tl => (k, v) :: tl.toList

/-- Python truthiness of a value: empty strings/lists/dicts, `0` and
`False` are falsy, everything else is truthy. -/
def Val.truthy : Val → Bool
  | .str s => !s.isEmpty
  | .num n => n != 0
  | .vbool b => b
  | .arr l => match l with | .nil => false | .cons _ _ => true
  | .obj o => match o with | .nil => false | .cons _ _ _ => true

/-- Truthiness of `d.get(k)`-style results: Python's `None` (our `none`)
is falsy. -/
def optTruthy : Option Val → Bool
  | none => false
  | some v => v.truthy

/-- Dictionary lookup on an association list (first matching key). -/
def alookup {κ β : Type} [DecidableEq κ] : List (κ × β) → κ → Option β
  | [], _ => none
  | (k, v) :: tl, a => if k = a then some v else alookup tl a

/-- Dictionary assignment `m[k] = v`: overwrite the first occurrence of
`k` in place, or append a fresh key at the end (Python dicts keep
insertion order). -/
def aset {κ β : Type} [DecidableEq κ] : List (κ × β) → κ → β → List (κ × β)
  | [], k, v => [(k, v)]
  | (k', v') :: tl, k, v =>
    if k' = k then (k, v) :: tl else (k', v') :: aset tl k v

/-- The keys of an association list, in order. -/
def akeys {κ β : Type} : List (κ × β) → List κ :=
  List.map Prod.fst

/-- An airport record / arbitrary JSON object at top level: a Python dict
from string keys to values. -/
abbrev Rec : Type := List (String × Val)

/-- `a.update(b)`: write every key/value pair of `b` into `a`, in `b`'s
order. -/
def Rec.update (a b : Rec) : Rec :=
  b.foldl (fun r kv => aset r kv.1 kv.2) a

/-- A dict has pairwise-distinct keys (always true of real Python dicts;
stated where a record originates from parsed JSON). -/
abbrev NodupKeys (a : Rec) : Prop :=
  (akeys a).Nodup

/-- `PRIORITIZED_TYPES` from the source. -/
def PRIORITIZED_TYPES : List String :=
  ["large_airport", "medium_airport"]

/-- `WESTERN_EUROPE` from the source. -/
def WESTERN_EUROPE : List String :=
  ["FR", "GB", "IE", "DE", "NL", "BE", "LU", "CH", "AT", "ES", "PT", "IT",
   "AD", "LI", "MC"]

/-- Membership of an optional cell value in a set of strings: pandas
`isin` / Python `in` over a set of strings holds only for an equal
string; missing values (`NaN`/`None`) never match. -/
def optValMem (v : Option Val) (s : List String) : Bool :=
  match v with
  | some (.str t) => s.contains t
  | _ => false

/-- Truthiness of `self.api_key` (`os.getenv` result): unset (`None`) or
empty string is falsy. -/
def truthyKey : Option String → Bool
  | none => false
  | some s => !s.isEmpty

/-- `fetch_airport_details` (source lines 66-82).  Returns the payload
dict, the updated in-run cache, and whether an HTTP request was
attempted.  No API key: empty payload, no request.  Cache hit: cached
payload, no request.  Otherwise one request: a parsed dict response is
cached and returned; any failure or non-dict body yields an empty
payload (and is not cached). -/
def fetch_airport_details (k : Option String) (hD : Val → Option Val)
    (cache : List (Val × Rec)) (i : Val) : Rec × List (Val × Rec) × Bool :=
  if !truthyKey k then ([], cache, false)
  else
    match alookup cache i with
    | some d => (d, cache, false)
    | none =>
      match hD i with
      | some (.obj o) => (o.toList, aset cache i o.toList, true)
      | _ => ([], cache, true)

/-- `check_metar_available` (source lines 84-97): one HTTP request; a
parsed dict is available iff non-empty, a parsed list iff non-empty, any
other body or any failure gives `false`. -/
def check_metar_available (hM : Val → Option Val) (i : Val) : Bool :=
  match hM i with
  | some (.obj o) => match o with | .nil => false | .cons _ _ _ => true
  | some (.arr l) => match l with | .nil => false | .cons _ _ => true
  | _ => false

/-- One source row: an optional cell per recognized column (`none` is a
missing cell / NaN). -/
structure Row where
  ident : Option Val := none
  type : Option Val := none
  name : Option Val := none
  elevation_ft : Option Val := none
  continent : Option Val := none
  iso_country : Option Val := none
  iso_region : Option Val := none
  municipality : Option Val := none
  gps_code : Option Val := none
  iata_code : Option Val := none
  local_code : Option Val := none
  coordinates : Option Val := none
deriving DecidableEq, Repr

/-- Cell of a row under a column name. -/
def Row.col (r : Row) : String → Option Val
  | "ident" => r.ident
  | "type" => r.type
  | "name" => r.name
  | "elevation_ft" => r.elevation_ft
  | "continent" => r.continent
  | "iso_country" => r.iso_country
  | "iso_region" => r.iso_region
  | "municipality" => r.municipality
  | "gps_code" => r.gps_code
  | "iata_code" => r.iata_code
  | "local_code" => r.local_code
  | "coordinates" => r.coordinates
  | _ => none

/-- The source DataFrame: which columns exist, and the rows. -/
structure Table where
  cols : List String
  rows : List Row

/-- `possible_columns` from the source (lines 116-120). -/
def possible_columns : List String :=
  ["ident", "type", "name", "elevation_ft", "continent",
   "iso_country", "iso_region", "municipality", "gps_code",
   "iata_code", "local_code", "coordinates"]

/-- Python `float(value)`: the model has a single numeric type, on which
the coercion is value-preserving, so it is the identity here. -/
def pyFloat : Val → Val := fun v => v

/-- Normalization loop body (source lines 167-173): walk
`possible_columns`, keeping each cell that exists and is non-missing,
coercing `elevation_ft`. -/
def normAux (cols : List String) (r : Row) : List String → Rec → Rec
  | [], ad => ad
  | c :: rest, ad =>
    normAux cols r rest
      (if cols.contains c then
        match r.col c with
        | some v => aset ad c (if c = "elevation_ft" then pyFloat v else v)
        | none => ad
      else ad)

/-- The normalized `airport_data` built from one row. -/
def normalizeRow (cols : List String) (r : Row) : Rec :=
  normAux cols r possible_columns []

/-- The per-country counters dict `stats` (source lines 159-164). -/
structure Stats where
  metar_fetched : Nat
  metar_skipped : Nat
  airportdb_fetched : Nat
  airportdb_skipped : Nat
deriving DecidableEq, Repr

/-- Counters at the start of a country (all zero). -/
def stats0 : Stats :=
  ⟨0, 0, 0, 0⟩

/-- Run-wide mutable state: the in-run details cache
(`self._airport_cache`) plus ghost counters of actual HTTP requests made
to each provider (used to state the "no provider call" claims). -/
structure RunState where
  cache : List (Val × Rec)
  dCalls : Nat
  mCalls : Nat
deriving DecidableEq, Repr

/-- `'runways' in existing and existing['runways']` (source line 185). -/
def reuseRunways (existing : Rec) : Bool :=
  match alookup existing "runways" with
  | some v => v.truthy
  | none => false

/-- Merge of a fetched details payload (source lines 190-193): if the
payload is non-empty, all its fields are written into the record, and a
truthy `runways` field is written (again) on top. -/
def mergeDetails (ad details : Rec) : Rec :=
  match details with
  | [] => ad
  | _ :: _ =>
    let merged := Rec.update ad details
    match alookup details "runways" with
    | some rv => if rv.truthy then aset merged "runways" rv else merged
    | none => merged

/-- `should_enrich` (source lines 180-183), on the normalized record. -/
def shouldEnrichB (ad : Rec) : Bool :=
  optValMem (alookup ad "type") PRIORITIZED_TYPES
    && optValMem (alookup ad "iso_country") WESTERN_EUROPE

/-- The non-eligible path (source lines 201-209): weather from persisted
state or `false`, then a truthy persisted runway list carried over. -/
def nonEnrichRec (ad existing : Rec) : Rec :=
  let ad1 :=
    match alookup existing "metar_available" with
    | some mv => aset ad "metar_available" mv
    | none => aset ad "metar_available" (Val.vbool false)
  match alookup existing "runways" with
  | some rv => if rv.truthy then aset ad1 "runways" rv else ad1
  | none => ad1

/-- Enrichment of one record with a usable (truthy) identifier
(source lines 178-209): details facet, then weather facet, or the
non-eligible path. -/
def stepIdent (k : Option String) (hD hM : Val → Option Val)
    (exA : List (Val × Rec)) (st : RunState) (stats : Stats)
    (ad : Rec) (iv : Val) : Rec × RunState × Stats :=
  let existing : Rec := (alookup exA iv).getD []
  if shouldEnrichB ad then
    -- details/runway facet (lines 184-194)
    let det : Rec × RunState × Stats :=
      if reuseRunways existing then
        (Rec.update ad existing, st,
          { stats with airportdb_skipped := stats.airportdb_skipped + 1 })
      else
        let f := fetch_airport_details k hD st.cache iv
        (mergeDetails ad f.1,
          { st with
              cache := f.2.1,
              dCalls := st.dCalls + (if f.2.2 then 1 else 0) },
          { stats with airportdb_fetched := stats.airportdb_fetched + 1 })
    -- weather facet (lines 195-200)
    match alookup existing "metar_available" with
    | some mv =>
      (aset det.1 "metar_available" mv, det.2.1,
        { det.2.2 with metar_skipped := det.2.2.metar_skipped + 1 })
    | none =>
      (aset det.1 "metar_available" (Val.vbool (check_metar_available hM iv)),
        { det.2.1 with mCalls := det.2.1.mCalls + 1 },
        { det.2.2 with metar_fetched := det.2.2.metar_fetched + 1 })
  else
    (nonEnrichRec ad existing, st,
      { stats with
          metar_skipped := stats.metar_skipped + 1,
          airportdb_skipped := stats.airportdb_skipped + 1 })

/-- Processing of one row of a country (source lines 166-211): normalize
it, then enrich it when it has a usable identifier.  A record without a
truthy identifier is returned as normalized, with no counter change. -/
def stepRow (k : Option String) (hD hM : Val → Option Val)
    (cols : List String) (exA : List (Val × Rec))
    (st : RunState) (stats : Stats) (r : Row) : Rec × RunState × Stats :=
  let ad := normalizeRow cols r
  match alookup ad "ident" with
  | some iv =>
    if iv.truthy then stepIdent k hD hM exA st stats ad iv
    else (ad, st, stats)
  | none => (ad, st, stats)

/-- The per-country row loop: every row's record is appended, in source
order, and the counters and run state are threaded through. -/
def processRows (k : Option String) (hD hM : Val → Option Val)
    (cols : List String) (exA : List (Val × Rec))
    (st : RunState) (stats : Stats) : List Row → List Rec × Stats × RunState
  | [] => ([], stats, st)
  | r :: rest =>
    let s := stepRow k hD hM cols exA st stats r
    let t := processRows k hD hM cols exA s.2.1 s.2.2 rest
    (s.1 :: t.1, t.2.1, t.2.2)

/-- The reuse mapping built from a persisted country file (source lines
152-154): identifier → record over the persisted `airports` array,
keeping only records with a truthy `ident` (later records overwrite
earlier ones with the same identifier). -/
def loadPersistAux : List (Val × Rec) → List Rec → List (Val × Rec)
  | m, [] => m
  | m, a :: tl =>
    loadPersistAux
      (match alookup a "ident" with
       | some iv => if iv.truthy then aset m iv a else m
       | none => m) tl

/-- Identifier → persisted record mapping for one country. -/
def loadPersist (airports : List Rec) : List (Val × Rec) :=
  loadPersistAux [] airports

/-- The eligibility pre-filter (source lines 105-108): raw
`iso_country` in the Western-Europe allow-list and raw `type` among the
prioritized types. -/
def enrichableRow (r : Row) : Bool :=
  optValMem r.iso_country WESTERN_EUROPE && optValMem r.type PRIORITIZED_TYPES

/-- `drop_duplicates`: keep the first occurrence of each element. -/
def dedupKeepFirst {α : Type} [DecidableEq α] : List α → List α :=
  fun l => l.foldl (fun acc x => if x ∈ acc then acc else acc ++ [x]) []

/-- `ordered_countries` (source lines 124-138): the distinct
(`iso_country`, `continent`) pairs of the enrichable rows (rows with a
missing `iso_country` dropped), projected to `iso_country`; without a
`continent` column, the distinct non-missing `iso_country` values. -/
def orderedCountries (t : Table) : List Val :=
  let enr := t.rows.filter enrichableRow
  if t.cols.contains "continent" then
    (dedupKeepFirst (enr.filterMap
      (fun r =>
        match r.iso_country with
        | some c => some (c, r.continent)
        | none => none))).map Prod.fst
  else
    dedupKeepFirst (enr.filterMap (fun r => r.iso_country))

/-- Result of one `process_airports` run: `self.countries_data`,
`self.api_stats` (both insertion-ordered dicts) and the final run
state. -/
structure RunOut where
  countries_data : List (Val × List Rec)
  api_stats : List (Val × Stats)
  state : RunState
deriving DecidableEq, Repr

/-- `process_airports` (source lines 99-222): restrict to enrichable
rows, then process each country of `ordered_countries` in order, seeding
each country's reuse mapping from the persisted accessor (`persisted c`
is the `airports` array of the country's file, `[]` when the file is
missing or unreadable, source lines 146-156).
`procStep` is one iteration of the country loop (lines 140-220). -/
def procStep (k : Option String) (hD hM : Val → Option Val)
    (persisted : Val → List Rec) (cols : List String) (enr : List Row)
    (out : RunOut) (c : Val) : RunOut :=
  let countryRows := enr.filter (fun r => r.iso_country = some c)
  let exA := loadPersist (persisted c)
  let p := processRows k hD hM cols exA out.state stats0 countryRows
  { countries_data := aset out.countries_data c p.1,
    api_stats := aset out.api_stats c p.2.1,
    state := p.2.2 }

def process_airports (k : Option String) (hD hM : Val → Option Val)
    (persisted : Val → List Rec) (t : Table) : RunOut :=
  (orderedCountries t).foldl
    (procStep k hD hM persisted t.cols (t.rows.filter enrichableRow))
    ⟨[], [], ⟨[], 0, 0⟩⟩

/-- The `airports` array that `save_country_data` writes for a country
(source lines 257-265) and that the next run's loader reads back:
exactly `self.countries_data[c]`, `[]` for a country without a file. -/
def savedAirports (out : RunOut) (c : Val) : List Rec :=
  (alookup out.countries_data c).getD []

/-- One entry of the generated countries index (source lines 233-238). -/
structure CountryEntry where
  code : Val
  name : Val
  airport_count : Nat
  types_distribution : List (Val × Nat)
deriving DecidableEq, Repr

/-- `get_country_name` (source lines 49-51): the loaded name for the
code, defaulting to the code itself. -/
def get_country_name (names : Val → Option Val) (c : Val) : Val :=
  (names c).getD c

/-- `airport.get('type', 'unknown')` (source line 230). -/
def typeKey (a : Rec) : Val :=
  (alookup a "type").getD (Val.str "unknown")

/-- The `types_count` / `types_distribution` dict (source lines 228-231):
count records per effective type. -/
def typesCount (airports : List Rec) : List (Val × Nat) :=
  airports.foldl
    (fun m a => aset m (typeKey a) ((alookup m (typeKey a)).getD 0 + 1)) []

/-- One index entry built from a `countries_data` item. -/
def mkEntry (names : Val → Option Val) (p : Val × List Rec) : CountryEntry :=
  { code := p.1,
    name := get_country_name names p.1,
    airport_count := p.2.length,
    types_distribution := typesCount p.2 }

/-- The comparison underlying `countries.sort(key=lambda x: x['name'])`:
lexicographic order on string names.  Python raises `TypeError` on
non-string comparisons; those cases are unreachable for real data and
the claims about the sort are stated for string names. -/
def nameLe (a b : Val) : Bool :=
  match a, b with
  | .str x, .str y => x ≤ y
  | _, _ => true

/-- Stable insertion of an element after every already-placed element
not strictly greater. -/
def insertStable {α : Type} (le : α → α → Bool) (x : α) : List α → List α
  | [] => [x]
  | y :: ys => if le y x then y :: insertStable le x ys else x :: y :: ys

/-- Stable sort (Python `list.sort` is stable; any stable sort agrees
with it on a total preorder comparator). -/
def stableSortBy {α : Type} (le : α → α → Bool) (l : List α) : List α :=
  l.foldl (fun acc x => insertStable le x acc) []

/-- Comparison of index entries by display name. -/
def entryLe (a b : CountryEntry) : Bool :=
  nameLe a.name b.name

/-- `generate_countries_index` (source lines 224-243): one entry per
`countries_data` item in encounter order, sorted by display name. -/
def generate_countries_index (names : Val → Option Val)
    (cd : List (Val × List Rec)) : List CountryEntry :=
  stableSortBy entryLe (cd.map (mkEntry names))

/-- Cache-free details fetch result: what `fetch_airport_details`
returns for an identifier regardless of the cache state (the cache only
ever holds earlier successful responses of the same deterministic
oracle). -/
def fetchPure (k : Option String) (hD : Val → Option Val) (i : Val) : Rec :=
  if !truthyKey k then []
  else
    match hD i with
    | some (.obj o) => o.toList
    | _ => []

/-! ### The concrete three-row scenario (KJFK/US, EGLL/GB, LFPG/FR) -/

/-- KJFK row of the spec's concrete scenario (US is not eligible). -/
def scRowKJFK : Row :=
  { ident := some (Val.str "KJFK"), type := some (Val.str "large_airport"),
    name := some (Val.str "John F Kennedy"), elevation_ft := some (Val.num 13),
    continent := some (Val.str "NA"), iso_country := some (Val.str "US"),
    iso_region := some (Val.str "US-NY"), municipality := some (Val.str "New York"),
    gps_code := some (Val.str "KJFK"), iata_code := some (Val.str "JFK"),
    local_code := some (Val.str "JFK"), coordinates := some (Val.str "40.6398,-73.7789") }

/-- EGLL row of the concrete scenario (GB is eligible). -/
def scRowEGLL : Row :=
  { ident := some (Val.str "EGLL"), type := some (Val.str "large_airport"),
    name := some (Val.str "Heathrow"), elevation_ft := some (Val.num 83),
    continent := some (Val.str "EU"), iso_country := some (Val.str "GB"),
    iso_region := some (Val.str "GB-ENG"), municipality := some (Val.str "London"),
    gps_code := some (Val.str "EGLL"), iata_code := some (Val.str "LHR"),
    local_code := some (Val.str "LHR"), coordinates := some (Val.str "51.4775,-0.4614") }

/-- LFPG row of the concrete scenario (FR is eligible). -/
def scRowLFPG : Row :=
  { ident := some (Val.str "LFPG"), type := some (Val.str "large_airport"),
    name := some (Val.str "Charles de Gaulle"), elevation_ft := some (Val.num 392),
    continent := some (Val.str "EU"), iso_country := some (Val.str "FR"),
    iso_region := some (Val.str "FR-IDF"), municipality := some (Val.str "Paris"),
    gps_code := some (Val.str "LFPG"), iata_code := some (Val.str "CDG"),
    local_code := some (Val.str "CDG"), coordinates := some (Val.str "49.0128,2.5500") }

/-- The scenario source table: all recognized columns, three rows. -/
def scTable : Table :=
  ⟨possible_columns, [scRowKJFK, scRowEGLL, scRowLFPG]⟩

/-- Details-provider stub of the scenario:
`{city: "Test City", runways: [{id: 1}]}` for every identifier. -/
def scDetails : Val → Option Val := fun _ =>
  some (Val.obj (ObjList.cons "city" (Val.str "Test City")
    (ObjList.cons "runways"
      (Val.arr (ValList.cons (Val.obj (ObjList.cons "id" (Val.num 1) ObjList.nil))
        ValList.nil)) ObjList.nil)))

/-- Weather-provider stub of the scenario: a non-empty result set for
every identifier. -/
def scMetar : Val → Option Val := fun _ =>
  some (Val.arr (ValList.cons (Val.obj ObjList.nil) ValList.nil))

/-- The scenario run: no persisted state, a configured API key. -/
def scRun : RunOut :=
  process_airports (some "testkey") scDetails scMetar (fun _ => []) scTable

/-- A row whose normalized record carries a usable (truthy) identifier. -/
def identTruthyRow (cols : List String) (r : Row) : Bool :=
  optTruthy (alookup (normalizeRow cols r) "ident")

/-- Count of eligible airports of a country, as the claim words it: the
rows that pass the eligibility filter and belong to the country. -/
def eligibleCount (t : Table) (c : Val) : Nat :=
  ((t.rows.filter enrichableRow).filter (fun r => r.iso_country = some c)).length

/-- Count of eligible airports of a country that also have a usable
identifier (the rows for which the engine takes an enrichment
decision). -/
def eligibleIdentCount (t : Table) (c : Val) : Nat :=
  (((t.rows.filter enrichableRow).filter (fun r => r.iso_country = some c)).filter
    (fun r => identTruthyRow t.cols r)).length

/-- Invariant of the in-run details cache: it only holds dict payloads
previously returned by the (deterministic) details oracle. -/
def CacheOK (hD : Val → Option Val) (cache : List (Val × Rec)) : Prop :=
  ∀ i d, alookup cache i = some d →
    ∃ o : ObjList, hD i = some (Val.obj o) ∧ o.toList = d

/-- The record one row produces, computed without the cache (the cache
is semantically transparent: a hit replays the oracle's response). -/
def recOf (k : Option String) (hD hM : Val → Option Val)
    (cols : List String) (exA : List (Val × Rec)) (r : Row) : Rec :=
  match alookup (normalizeRow cols r) "ident" with
  | some iv =>
    if iv.truthy then
      if shouldEnrichB (normalizeRow cols r) then
        match alookup ((alookup exA iv).getD []) "metar_available" with
        | some mv =>
          aset (if reuseRunways ((alookup exA iv).getD []) then
              Rec.update (normalizeRow cols r) ((alookup exA iv).getD [])
            else mergeDetails (normalizeRow cols r) (fetchPure k hD iv))
            "metar_available" mv
        | none =>
          aset (if reuseRunways ((alookup exA iv).getD []) then
              Rec.update (normalizeRow cols r) ((alookup exA iv).getD [])
            else mergeDetails (normalizeRow cols r) (fetchPure k hD iv))
            "metar_available" (Val.vbool (check_metar_available hM iv))
      else nonEnrichRec (normalizeRow cols r) ((alookup exA iv).getD [])
    else normalizeRow cols r
  | none => normalizeRow cols r

/-- The four counter increments one row contributes. -/
def stepDelta (cols : List String) (exA : List (Val × Rec)) (r : Row) : Stats :=
  match alookup (normalizeRow cols r) "ident" with
  | some iv =>
    if iv.truthy then
      if shouldEnrichB (normalizeRow cols r) then
        ⟨if (alookup ((alookup exA iv).getD []) "metar_available").isSome then 0 else 1,
         if (alookup ((alookup exA iv).getD []) "metar_available").isSome then 1 else 0,
         if reuseRunways ((alookup exA iv).getD []) then 0 else 1,
         if reuseRunways ((alookup exA iv).getD []) then 1 else 0⟩
      else ⟨0, 1, 0, 1⟩
    else ⟨0, 0, 0, 0⟩
  | none => ⟨0, 0, 0, 0⟩

/-- Field-wise addition of counters. -/
def statsAdd (s t : Stats) : Stats :=
  ⟨s.metar_fetched + t.metar_fetched, s.metar_skipped + t.metar_skipped,
   s.airportdb_fetched + t.airportdb_fetched,
   s.airportdb_skipped + t.airportdb_skipped⟩

/-- The usable identifier of a row, if any. -/
def identOf (cols : List String) (r : Row) : Option Val :=
  match alookup (normalizeRow cols r) "ident" with
  | some iv => if iv.truthy then some iv else none
  | none => none

/-- The rows the engine processes for one country. -/
def countryRowsOf (t : Table) (c : Val) : List Row :=
  (t.rows.filter enrichableRow).filter (fun r => r.iso_country = some c)

/-- The record list a run produces for one country. -/
def runBucket (k : Option String) (hD hM : Val → Option Val)
    (persisted : Val → List Rec) (t : Table) (c : Val) : List Rec :=
  (countryRowsOf t c).map
    (recOf k hD hM t.cols (loadPersist (persisted c)))

/-- The counters a run produces for one country. -/
def runStats (persisted : Val → List Rec) (t : Table) (c : Val) : Stats :=
  (countryRowsOf t c).foldl
    (fun acc r => statsAdd acc (stepDelta t.cols (loadPersist (persisted c)) r))
    stats0

/-! ### Association-list (Python dict) lemmas -/

@[simp]
theorem akeys_nil {κ β : Type} : akeys ([] : List (κ × β)) = [] := rfl

@[simp]
theorem akeys_cons {κ β : Type} (k : κ) (v : β) (tl : List (κ × β)) :
    akeys ((k, v) :: tl) = k :: akeys tl := rfl

theorem akeys_append {κ β : Type} (a b : List (κ × β)) :
    akeys (a ++ b) = akeys a ++ akeys b :=
  List.map_append _ _ _

theorem mem_akeys_of_mem {κ β : Type} {m : List (κ × β)} {k : κ} {v : β}
    (h : (k, v) ∈ m) : k ∈ akeys m := by
  exact List.mem_map.mpr ⟨(k, v), h, rfl⟩

theorem aset_cons_ne {κ β : Type} [DecidableEq κ]
    {k' k : κ} (h : k' ≠ k) (v' : β) (tl : List (κ × β)) (v : β) :
    aset ((k', v') :: tl) k v = (k', v') :: aset tl k v := by
  simp [aset, h]

theorem aset_cons_self {κ β : Type} [DecidableEq κ]
    (k : κ) (v' : β) (tl : List (κ × β)) (v : β) :
    aset ((k, v') :: tl) k v = (k, v) :: tl := by
  simp [aset]

theorem alookup_cons_self {κ β : Type} [DecidableEq κ]
    (k : κ) (v : β) (tl : List (κ × β)) :
    alookup ((k, v) :: tl) k = some v := by
  simp [alookup]

theorem alookup_cons_ne {κ β : Type} [DecidableEq κ]
    {k' k : κ} (h : k' ≠ k) (v' : β) (tl : List (κ × β)) :
    alookup ((k', v') :: tl) k = alookup tl k := by
  simp [alookup, h]

theorem alookup_aset_self {κ β : Type} [DecidableEq κ]
    (m : List (κ × β)) (k : κ) (v : β) : alookup (aset m k v) k = some v := by
  induction m with
  | nil => simp [aset, alookup]
  | cons hd tl ih =>
    obtain ⟨k', v'⟩ := hd
    by_cases h : k' = k
    · subst h
      rw [aset_cons_self, alookup_cons_self]
    · rw [aset_cons_ne h, alookup_cons_ne h, ih]

theorem alookup_aset_ne {κ β : Type} [DecidableEq κ]
    (m : List (κ × β)) {k x : κ} (h : x ≠ k) (v : β) :
    alookup (aset m k v) x = alookup m x := by
  induction m with
  | nil =>
    simp only [aset, alookup]
    rw [if_neg (fun hc => h hc.symm)]
  | cons hd tl ih =>
    obtain ⟨k', v'⟩ := hd
    by_cases h' : k' = k
    · subst h'
      rw [aset_cons_self, alookup_cons_ne (fun hc => h hc.symm),
        alookup_cons_ne (fun hc => h hc.symm)]
    · rw [aset_cons_ne h']
      by_cases h'' : k' = x
      · subst h''
        rw [alookup_cons_self, alookup_cons_self]
      · rw [alookup_cons_ne h'', alookup_cons_ne h'', ih]

theorem alookup_mem {κ β : Type} [DecidableEq κ]
    {m : List (κ × β)} {k : κ} {v : β} (h : alookup m k = some v) :
    (k, v) ∈ m := by
  induction m with
  | nil => simp [alookup] at h
  | cons hd tl ih =>
    obtain ⟨k', v'⟩ := hd
    by_cases h' : k' = k
    · subst h'
      rw [alookup_cons_self] at h
      cases h
      exact List.mem_cons_self _ _
    · rw [alookup_cons_ne h'] at h
      exact List.mem_cons_of_mem _ (ih h)

theorem alookup_eq_none_iff {κ β : Type} [DecidableEq κ]
    {m : List (κ × β)} {k : κ} : alookup m k = none ↔ k ∉ akeys m := by
  induction m with
  | nil => simp [alookup]
  | cons hd tl ih =>
    obtain ⟨k', v'⟩ := hd
    by_cases h' : k' = k
    · subst h'
      rw [alookup_cons_self]
      simp
    · rw [alookup_cons_ne h', akeys_cons]
      simp only [List.mem_cons]
      rw [ih]
      constructor
      · intro hn hc
        rcases hc with hc | hc
        · exact h' hc.symm
        · exact hn hc
      · intro hn hc
        exact hn (Or.inr hc)

theorem alookup_isSome_iff {κ β : Type} [DecidableEq κ]
    {m : List (κ × β)} {k : κ} : (alookup m k).isSome = true ↔ k ∈ akeys m := by
  constructor
  · intro h
    cases hm : alookup m k with
    | none => rw [hm] at h; simp at h
    | some v => exact mem_akeys_of_mem (alookup_mem hm)
  · intro h
    cases hm : alookup m k with
    | none => exact absurd h (alookup_eq_none_iff.mp hm)
    | some v => rfl

theorem akeys_aset_mem {κ β : Type} [DecidableEq κ]
    {m : List (κ × β)} {k : κ} (h : k ∈ akeys m) (v : β) :
    akeys (aset m k v) = akeys m := by
  induction m with
  | nil => simp at h
  | cons hd tl ih =>
    obtain ⟨k', v'⟩ := hd
    by_cases h' : k' = k
    · subst h'
      rw [aset_cons_self, akeys_cons, akeys_cons]
    · rw [aset_cons_ne h', akeys_cons, akeys_cons]
      rw [akeys_cons, List.mem_cons] at h
      rcases h with h | h
      · exact absurd h.symm h'
      · rw [ih h]

theorem aset_notmem {κ β : Type} [DecidableEq κ]
    {m : List (κ × β)} {k : κ} (h : k ∉ akeys m) (v : β) :
    aset m k v = m ++ [(k, v)] := by
  induction m with
  | nil => simp [aset]
  | cons hd tl ih =>
    obtain ⟨k', v'⟩ := hd
    rw [akeys_cons, List.mem_cons] at h
    push_neg at h
    rw [aset_cons_ne (fun hc => h.1 hc.symm), ih h.2, List.cons_append]

theorem akeys_aset_notmem {κ β : Type} [DecidableEq κ]
    {m : List (κ × β)} {k : κ} (h : k ∉ akeys m) (v : β) :
    akeys (aset m k v) = akeys m ++ [k] := by
  rw [aset_notmem h v, akeys_append, akeys_cons, akeys_nil]

theorem akeys_aset_isPrefix {κ β : Type} [DecidableEq κ]
    (m : List (κ × β)) (k : κ) (v : β) :
    akeys m <+: akeys (aset m k v) := by
  by_cases h : k ∈ akeys m
  · rw [akeys_aset_mem h]
  · rw [akeys_aset_notmem h]
    exact ⟨[k], rfl⟩

theorem nodup_akeys_aset {κ β : Type} [DecidableEq κ]
    {m : List (κ × β)} (h : (akeys m).Nodup) (k : κ) (v : β) :
    (akeys (aset m k v)).Nodup := by
  by_cases hm : k ∈ akeys m
  · rw [akeys_aset_mem hm]
    exact h
  · rw [akeys_aset_notmem hm]
    simp [List.nodup_append, h, hm]

theorem aset_eq_self_of_alookup {κ β : Type} [DecidableEq κ]
    {m : List (κ × β)} {k : κ} {v : β} (h : alookup m k = some v) :
    aset m k v = m := by
  induction m with
  | nil => simp [alookup] at h
  | cons hd tl ih =>
    obtain ⟨k', v'⟩ := hd
    by_cases h' : k' = k
    · subst h'
      rw [alookup_cons_self] at h
      cases h
      rw [aset_cons_self]
    · rw [alookup_cons_ne h'] at h
      rw [aset_cons_ne h', ih h]

/-! ### `dict.update` lemmas -/

theorem update_nil (a : Rec) : Rec.update a [] = a := rfl

theorem update_cons (a : Rec) (k : String) (v : Val) (b : Rec) :
    Rec.update a ((k, v) :: b) = Rec.update (aset a k v) b := rfl

theorem update_append (a b c : Rec) :
    Rec.update a (b ++ c) = Rec.update (Rec.update a b) c :=
  List.foldl_append _ _ _ _

theorem alookup_update_notmem {x : String} :
    ∀ (b a : Rec), x ∉ akeys b → alookup (Rec.update a b) x = alookup a x
  | [], _, _ => rfl
  | (k, v) :: tl, a, h => by
    rw [akeys_cons, List.mem_cons] at h
    push_neg at h
    rw [update_cons, alookup_update_notmem tl _ h.2, alookup_aset_ne _ h.1]

theorem alookup_update_const {x : String} {w : Val} :
    ∀ (b a : Rec), (∀ v, (x, v) ∈ b → v = w) → alookup a x = some w →
      alookup (Rec.update a b) x = some w
  | [], _, _, ha => ha
  | (k, v) :: tl, a, hall, ha => by
    rw [update_cons]
    by_cases hk : k = x
    · subst hk
      have hv : v = w := hall v (List.mem_cons_self _ _)
      subst hv
      exact alookup_update_const tl _
        (fun u hu => hall u (List.mem_cons_of_mem _ hu))
        (alookup_aset_self a k v)
    · exact alookup_update_const tl _
        (fun u hu => hall u (List.mem_cons_of_mem _ hu))
        (by rw [alookup_aset_ne _ (fun hc => hk hc.symm)]; exact ha)

theorem alookup_update_nodup {x : String} :
    ∀ (b a : Rec), NodupKeys b → x ∈ akeys b →
      alookup (Rec.update a b) x = alookup b x
  | [], _, _, hx => by simp at hx
  | (k, v) :: tl, a, hnd, hx => by
    unfold NodupKeys at hnd
    rw [akeys_cons, List.nodup_cons] at hnd
    rw [update_cons]
    by_cases hk : k = x
    · subst hk
      rw [alookup_update_notmem tl _ hnd.1, alookup_aset_self,
        alookup_cons_self]
    · rw [akeys_cons, List.mem_cons] at hx
      rcases hx with hx | hx
      · exact absurd hx.symm hk
      · rw [alookup_update_nodup tl _ hnd.2 hx, alookup_cons_ne hk]

theorem akeys_update_isPrefix : ∀ (b a : Rec), akeys a <+: akeys (Rec.update a b)
  | [], _ => List.prefix_refl _
  | (k, v) :: tl, a => by
    rw [update_cons]
    exact (akeys_aset_isPrefix a k v).trans (akeys_update_isPrefix tl (aset a k v))

theorem nodupKeys_update : ∀ (b : Rec) {a : Rec}, NodupKeys a → NodupKeys (Rec.update a b)
  | [], _, h => h
  | (k, v) :: tl, a, h => by
    rw [update_cons]
    exact nodupKeys_update tl (nodup_akeys_aset h k v)

theorem update_cons_of_notmem {k : String} :
    ∀ (b : Rec), k ∉ akeys b → ∀ (v : Val) (a : Rec),
      Rec.update ((k, v) :: a) b = (k, v) :: Rec.update a b
  | [], _, _, _ => rfl
  | (k2, v2) :: tl, h, v, a => by
    rw [akeys_cons, List.mem_cons] at h
    push_neg at h
    rw [update_cons, aset_cons_ne h.1, update_cons_of_notmem tl h.2, update_cons]

theorem update_eq_of_akeys_eq :
    ∀ (r1 a : Rec), akeys a = akeys r1 → NodupKeys r1 → Rec.update a r1 = r1
  | [], a, h, _ => by
    cases a with
    | nil => rfl
    | cons hd tl =>
      obtain ⟨k, v⟩ := hd
      rw [akeys_cons, akeys_nil] at h
      cases h
  | (k, w) :: tl, a, h, hnd => by
    cases a with
    | nil =>
      rw [akeys_nil, akeys_cons] at h
      cases h
    | cons hd' tl' =>
      obtain ⟨k', v'⟩ := hd'
      rw [akeys_cons, akeys_cons] at h
      injection h with h1 h2
      subst h1
      unfold NodupKeys at hnd
      rw [akeys_cons, List.nodup_cons] at hnd
      rw [update_cons, aset_cons_self, update_cons_of_notmem tl hnd.1,
        update_eq_of_akeys_eq tl tl' h2 hnd.2]

theorem update_append_right :
    ∀ (r2 r1 : Rec), NodupKeys r2 → (∀ x ∈ akeys r2, x ∉ akeys r1) →
      Rec.update r1 r2 = r1 ++ r2
  | [], r1, _, _ => by simp [update_nil]
  | (k, v) :: tl, r1, hnd, hdisj => by
    have hnd' : k ∉ akeys tl ∧ (akeys tl).Nodup := by
      unfold NodupKeys at hnd
      rw [akeys_cons, List.nodup_cons] at hnd
      exact hnd
    have hk1 : k ∉ akeys r1 :=
      hdisj k (by rw [akeys_cons]; exact List.mem_cons_self _ _)
    have hdisj' : ∀ x ∈ akeys tl, x ∉ akeys (r1 ++ [(k, v)]) := by
      intro x hx
      rw [akeys_append, akeys_cons, akeys_nil]
      intro hmem
      rcases List.mem_append.mp hmem with hmem | hmem
      · exact hdisj x (by rw [akeys_cons]; exact List.mem_cons_of_mem _ hx) hmem
      · rcases List.mem_singleton.mp hmem with rfl
        exact hnd'.1 hx
    rw [update_cons, aset_notmem hk1, update_append_right tl _ hnd'.2 hdisj']
    simp

theorem exists_split_of_akeys_prefix :
    ∀ (a r : Rec), akeys a <+: akeys r →
      ∃ r1 r2, r = r1 ++ r2 ∧ akeys r1 = akeys a
  | [], r, _ => ⟨[], r, rfl, rfl⟩
  | (k, v) :: tl, r, h => by
    cases r with
    | nil =>
      rw [akeys_cons, akeys_nil] at h
      exact absurd (List.IsPrefix.length_le h) (by simp)
    | cons hd' tl' =>
      obtain ⟨k', v'⟩ := hd'
      rw [akeys_cons, akeys_cons] at h
      obtain ⟨t, ht⟩ := h
      rw [List.cons_append] at ht
      injection ht with h1 h2
      subst h1
      obtain ⟨r1, r2, hr, hkeys⟩ :=
        exists_split_of_akeys_prefix tl tl' ⟨t, h2⟩
      exact ⟨(k, v') :: r1, r2, by rw [hr, List.cons_append],
        by rw [akeys_cons, akeys_cons, hkeys]⟩

theorem update_eq_self {a r : Rec} (hnd : NodupKeys r)
    (hpre : akeys a <+: akeys r) : Rec.update a r = r := by
  obtain ⟨r1, r2, hr, hkeys⟩ := exists_split_of_akeys_prefix a r hpre
  subst hr
  unfold NodupKeys at hnd
  rw [akeys_append, List.nodup_append] at hnd
  rw [update_append, update_eq_of_akeys_eq r1 a hkeys.symm hnd.1,
    update_append_right r2 r1 hnd.2.1]
  intro x hx hx1
  exact hnd.2.2 hx1 hx

/-! ### Normalizer lemmas -/

theorem alookup_normAux_notmem {x : String} :
    ∀ (cl : List String), x ∉ cl → ∀ (cols : List String) (r : Row) (ad : Rec),
      alookup (normAux cols r cl ad) x = alookup ad x
  | [], _, _, _, _ => rfl
  | c :: rest, h, cols, r, ad => by
    rw [List.mem_cons] at h
    push_neg at h
    simp only [normAux]
    rw [alookup_normAux_notmem rest h.2]
    by_cases hcc : cols.contains c = true
    · rw [if_pos hcc]
      cases hrc : r.col c with
      | some v => rw [alookup_aset_ne _ h.1]
      | none => rfl
    · rw [if_neg hcc]

theorem alookup_normAux_mem {x : String} :
    ∀ (cl : List String), cl.Nodup → x ∈ cl →
      ∀ (cols : List String) (r : Row) (ad : Rec),
      alookup (normAux cols r cl ad) x =
        if cols.contains x then
          match r.col x with
          | some v => some (if x = "elevation_ft" then pyFloat v else v)
          | none => alookup ad x
        else alookup ad x
  | [], _, hx, _, _, _ => absurd hx (List.not_mem_nil x)
  | c :: rest, hnd, hx, cols, r, ad => by
    rw [List.nodup_cons] at hnd
    simp only [normAux]
    rcases List.mem_cons.mp hx with hx | hx
    · subst hx
      rw [alookup_normAux_notmem rest hnd.1]
      by_cases hcc : cols.contains x = true
      · rw [if_pos hcc, if_pos hcc]
        cases hrc : r.col x with
        | some v => rw [alookup_aset_self]
        | none => rfl
      · rw [if_neg hcc, if_neg hcc]
    · have hxc : x ≠ c := fun hc => hnd.1 (hc ▸ hx)
      rw [alookup_normAux_mem rest hnd.2 hx]
      have had : alookup
          (if cols.contains c = true then
            match r.col c with
            | some v => aset ad c (if c = "elevation_ft" then pyFloat v else v)
            | none => ad
          else ad) x = alookup ad x := by
        by_cases hcc : cols.contains c = true
        · rw [if_pos hcc]
          cases hrc : r.col c with
          | some v => rw [alookup_aset_ne _ hxc]
          | none => rfl
        · rw [if_neg hcc]
      rw [had]

theorem nodupKeys_normAux :
    ∀ (cl cols : List String) (r : Row) (ad : Rec), NodupKeys ad →
      NodupKeys (normAux cols r cl ad)
  | [], _, _, _, h => h
  | c :: rest, cols, r, ad, h => by
    simp only [normAux]
    apply nodupKeys_normAux rest cols r
    by_cases hcc : cols.contains c = true
    · rw [if_pos hcc]
      cases hrc : r.col c with
      | some v => exact nodup_akeys_aset h c _
      | none => exact h
    · rw [if_neg hcc]
      exact h

theorem nodupKeys_normalizeRow (cols : List String) (r : Row) :
    NodupKeys (normalizeRow cols r) :=
  nodupKeys_normAux possible_columns cols r [] List.nodup_nil

theorem alookup_normalizeRow {x : String} (hx : x ∈ possible_columns)
    (cols : List String) (r : Row) :
    alookup (normalizeRow cols r) x =
      if cols.contains x then
        match r.col x with
        | some v => some (if x = "elevation_ft" then pyFloat v else v)
        | none => none
      else none := by
  unfold normalizeRow
  rw [alookup_normAux_mem possible_columns (by decide) hx]
  rfl

theorem alookup_normalizeRow_notmem {x : String} (hx : x ∉ possible_columns)
    (cols : List String) (r : Row) :
    alookup (normalizeRow cols r) x = none := by
  unfold normalizeRow
  rw [alookup_normAux_notmem possible_columns hx]
  rfl

theorem normalizeRow_ident (cols : List String) (r : Row) :
    alookup (normalizeRow cols r) "ident" =
      if cols.contains "ident" then r.ident else none := by
  rw [alookup_normalizeRow (by decide)]
  by_cases h : cols.contains "ident" = true
  · rw [if_pos h, if_pos h]
    cases hr : r.ident with
    | some v => simp [Row.col, hr]
    | none => simp [Row.col, hr]
  · rw [if_neg h, if_neg h]

theorem normalizeRow_type (cols : List String) (r : Row) :
    alookup (normalizeRow cols r) "type" =
      if cols.contains "type" then r.type else none := by
  rw [alookup_normalizeRow (by decide)]
  by_cases h : cols.contains "type" = true
  · rw [if_pos h, if_pos h]
    cases hr : r.type with
    | some v => simp [Row.col, hr]
    | none => simp [Row.col, hr]
  · rw [if_neg h, if_neg h]

theorem normalizeRow_iso_country (cols : List String) (r : Row) :
    alookup (normalizeRow cols r) "iso_country" =
      if cols.contains "iso_country" then r.iso_country else none := by
  rw [alookup_normalizeRow (by decide)]
  by_cases h : cols.contains "iso_country" = true
  · rw [if_pos h, if_pos h]
    cases hr : r.iso_country with
    | some v => simp [Row.col, hr]
    | none => simp [Row.col, hr]
  · rw [if_neg h, if_neg h]

theorem normalizeRow_metar (cols : List String) (r : Row) :
    alookup (normalizeRow cols r) "metar_available" = none :=
  alookup_normalizeRow_notmem (by decide) cols r

theorem normalizeRow_runways (cols : List String) (r : Row) :
    alookup (normalizeRow cols r) "runways" = none :=
  alookup_normalizeRow_notmem (by decide) cols r

/-! ### Branch equations for one processing step -/

theorem stepRow_ident {cols : List String} {r : Row} {iv : Val}
    (hiv : alookup (normalizeRow cols r) "ident" = some iv)
    (htr : iv.truthy = true) (k : Option String) (hD hM : Val → Option Val)
    (exA : List (Val × Rec)) (st : RunState) (stats : Stats) :
    stepRow k hD hM cols exA st stats r =
      stepIdent k hD hM exA st stats (normalizeRow cols r) iv := by
  unfold stepRow
  simp only [hiv, htr, if_true]

theorem stepRow_ident_none {cols : List String} {r : Row}
    (hiv : alookup (normalizeRow cols r) "ident" = none)
    (k : Option String) (hD hM : Val → Option Val)
    (exA : List (Val × Rec)) (st : RunState) (stats : Stats) :
    stepRow k hD hM cols exA st stats r = (normalizeRow cols r, st, stats) := by
  unfold stepRow
  simp only [hiv]

theorem stepRow_ident_falsy {cols : List String} {r : Row} {iv : Val}
    (hiv : alookup (normalizeRow cols r) "ident" = some iv)
    (htr : iv.truthy = false) (k : Option String) (hD hM : Val → Option Val)
    (exA : List (Val × Rec)) (st : RunState) (stats : Stats) :
    stepRow k hD hM cols exA st stats r = (normalizeRow cols r, st, stats) := by
  unfold stepRow
  simp only [hiv, htr, if_false, Bool.false_eq_true]

theorem stepIdent_reuse_wSkip {exA : List (Val × Rec)} {iv : Val}
    {existing ad : Rec} (hex : (alookup exA iv).getD [] = existing)
    (hse : shouldEnrichB ad = true) (hreuse : reuseRunways existing = true)
    {mv : Val} (hmv : alookup existing "metar_available" = some mv)
    (k : Option String) (hD hM : Val → Option Val)
    (st : RunState) (stats : Stats) :
    stepIdent k hD hM exA st stats ad iv =
      (aset (Rec.update ad existing) "metar_available" mv, st,
        ⟨stats.metar_fetched, stats.metar_skipped + 1,
         stats.airportdb_fetched, stats.airportdb_skipped + 1⟩) := by
  unfold stepIdent
  rw [hex]
  simp only [hse, hreuse, hmv, if_true]

theorem stepIdent_reuse_wFetch {exA : List (Val × Rec)} {iv : Val}
    {existing ad : Rec} (hex : (alookup exA iv).getD [] = existing)
    (hse : shouldEnrichB ad = true) (hreuse : reuseRunways existing = true)
    (hmv : alookup existing "metar_available" = none)
    (k : Option String) (hD hM : Val → Option Val)
    (st : RunState) (stats : Stats) :
    stepIdent k hD hM exA st stats ad iv =
      (aset (Rec.update ad existing) "metar_available"
          (Val.vbool (check_metar_available hM iv)),
        ⟨st.cache, st.dCalls, st.mCalls + 1⟩,
        ⟨stats.metar_fetched + 1, stats.metar_skipped,
         stats.airportdb_fetched, stats.airportdb_skipped + 1⟩) := by
  unfold stepIdent
  rw [hex]
  simp only [hse, hreuse, hmv, if_true]

theorem stepIdent_fetch_wSkip {exA : List (Val × Rec)} {iv : Val}
    {existing ad : Rec} (hex : (alookup exA iv).getD [] = existing)
    (hse : shouldEnrichB ad = true) (hreuse : reuseRunways existing = false)
    {mv : Val} (hmv : alookup existing "metar_available" = some mv)
    (k : Option String) (hD hM : Val → Option Val)
    (st : RunState) (stats : Stats) :
    stepIdent k hD hM exA st stats ad iv =
      (aset (mergeDetails ad (fetch_airport_details k hD st.cache iv).1)
          "metar_available" mv,
        ⟨(fetch_airport_details k hD st.cache iv).2.1,
         st.dCalls + (if (fetch_airport_details k hD st.cache iv).2.2 then 1 else 0),
         st.mCalls⟩,
        ⟨stats.metar_fetched, stats.metar_skipped + 1,
         stats.airportdb_fetched + 1, stats.airportdb_skipped⟩) := by
  unfold stepIdent
  rw [hex]
  simp only [hse, hreuse, hmv, if_true, if_false, Bool.false_eq_true]

theorem stepIdent_fetch_wFetch {exA : List (Val × Rec)} {iv : Val}
    {existing ad : Rec} (hex : (alookup exA iv).getD [] = existing)
    (hse : shouldEnrichB ad = true) (hreuse : reuseRunways existing = false)
    (hmv : alookup existing "metar_available" = none)
    (k : Option String) (hD hM : Val → Option Val)
    (st : RunState) (stats : Stats) :
    stepIdent k hD hM exA st stats ad iv =
      (aset (mergeDetails ad (fetch_airport_details k hD st.cache iv).1)
          "metar_available" (Val.vbool (check_metar_available hM iv)),
        ⟨(fetch_airport_details k hD st.cache iv).2.1,
         st.dCalls + (if (fetch_airport_details k hD st.cache iv).2.2 then 1 else 0),
         st.mCalls + 1⟩,
        ⟨stats.metar_fetched + 1, stats.metar_skipped,
         stats.airportdb_fetched + 1, stats.airportdb_skipped⟩) := by
  unfold stepIdent
  rw [hex]
  simp only [hse, hreuse, hmv, if_true, if_false, Bool.false_eq_true]

theorem stepIdent_nonEnrich {exA : List (Val × Rec)} {iv : Val}
    {existing ad : Rec} (hex : (alookup exA iv).getD [] = existing)
    (hse : shouldEnrichB ad = false)
    (k : Option String) (hD hM : Val → Option Val)
    (st : RunState) (stats : Stats) :
    stepIdent k hD hM exA st stats ad iv =
      (nonEnrichRec ad existing, st,
        ⟨stats.metar_fetched, stats.metar_skipped + 1,
         stats.airportdb_fetched, stats.airportdb_skipped + 1⟩) := by
  unfold stepIdent
  rw [hex]
  simp only [hse, if_false, Bool.false_eq_true]

/-! ### Small step facts -/

theorem reuseRunways_eq (e : Rec) :
    reuseRunways e = optTruthy (alookup e "runways") := by
  unfold reuseRunways optTruthy
  cases alookup e "runways" <;> rfl

theorem mergeDetails_nil (ad : Rec) : mergeDetails ad [] = ad := rfl

theorem fetch_nokey {k : Option String} (hk : truthyKey k = false)
    (hD : Val → Option Val) (cache : List (Val × Rec)) (i : Val) :
    fetch_airport_details k hD cache i = ([], cache, false) := by
  unfold fetch_airport_details
  rw [hk]
  rfl

theorem fetch_uncached {k : Option String} (hk : truthyKey k = true)
    {cache : List (Val × Rec)} {i : Val} (hc : alookup cache i = none)
    (hD : Val → Option Val) :
    fetch_airport_details k hD cache i =
      match hD i with
      | some (.obj o) => (o.toList, aset cache i o.toList, true)
      | _ => ([], cache, true) := by
  unfold fetch_airport_details
  rw [hk, hc]
  rfl

theorem processRows_length (k : Option String) (hD hM : Val → Option Val)
    (cols : List String) (exA : List (Val × Rec)) :
    ∀ (rows : List Row) (st : RunState) (stats : Stats),
      (processRows k hD hM cols exA st stats rows).1.length = rows.length
  | [], _, _ => rfl
  | r :: rest, st, stats => by
    unfold processRows
    simp only [List.length_cons]
    rw [processRows_length k hD hM cols exA rest]

/-- C9: a source row whose normalized record has no usable (truthy)
identifier is still appended to the country's record list (one output
record per row, unconditionally), but gets no `metar_available` key at
all and leaves all four counters and the run state untouched. -/
theorem claim9_no_ident_row (k : Option String) (hD hM : Val → Option Val)
    (cols : List String) (exA : List (Val × Rec)) (st : RunState)
    (stats : Stats) (r : Row)
    (hnid : optTruthy (alookup (normalizeRow cols r) "ident") = false) :
    stepRow k hD hM cols exA st stats r = (normalizeRow cols r, st, stats) ∧
    alookup (normalizeRow cols r) "metar_available" = none ∧
    ∀ (rows : List Row) (st' : RunState) (stats' : Stats),
      (processRows k hD hM cols exA st' stats' rows).1.length = rows.length := by
  refine ⟨?_, normalizeRow_metar cols r, processRows_length k hD hM cols exA⟩
  cases hiv : alookup (normalizeRow cols r) "ident" with
  | none => exact stepRow_ident_none hiv k hD hM exA st stats
  | some iv =>
    rw [hiv] at hnid
    exact stepRow_ident_falsy hiv hnid k hD hM exA st stats

/-- Witness for C9 at a concrete identifier-less eligible row. -/
theorem claim9_no_ident_row_witness :
    stepRow (some "key") (fun _ => none) (fun _ => none) possible_columns []
        ⟨[], 0, 0⟩ stats0
        { type := some (Val.str "large_airport"),
          iso_country := some (Val.str "FR") } =
      (normalizeRow possible_columns
        { type := some (Val.str "large_airport"),
          iso_country := some (Val.str "FR") }, ⟨[], 0, 0⟩, stats0) ∧
    alookup (normalizeRow possible_columns
        { type := some (Val.str "large_airport"),
          iso_country := some (Val.str "FR") }) "metar_available" = none := by
  have h := claim9_no_ident_row (some "key") (fun _ => none) (fun _ => none)
    possible_columns [] ⟨[], 0, 0⟩ stats0
    { type := some (Val.str "large_airport"),
      iso_country := some (Val.str "FR") } (by decide)
  exact ⟨h.1, h.2.1⟩

/-- C10: with no configured API key, `fetch_airport_details` returns an
empty payload without any HTTP request, yet an eligible airport with a
usable identifier and no reusable persisted runway data still counts as
`airportdb_fetched`; the ghost request counter does not move, so the
fetched counter exceeds the number of provider requests made. -/
theorem claim10_no_api_key (k : Option String) (hD hM : Val → Option Val)
    (cols : List String) (exA : List (Val × Rec)) (st : RunState)
    (stats : Stats) (r : Row) (iv : Val)
    (hk : truthyKey k = false)
    (hiv : alookup (normalizeRow cols r) "ident" = some iv)
    (htr : iv.truthy = true)
    (hse : shouldEnrichB (normalizeRow cols r) = true)
    (hreuse : optTruthy (alookup ((alookup exA iv).getD []) "runways") = false) :
    fetch_airport_details k hD st.cache iv = ([], st.cache, false) ∧
    (stepRow k hD hM cols exA st stats r).2.2.airportdb_fetched =
      stats.airportdb_fetched + 1 ∧
    (stepRow k hD hM cols exA st stats r).2.1.dCalls = st.dCalls := by
  have hfetch := fetch_nokey hk hD st.cache iv
  have hrr : reuseRunways ((alookup exA iv).getD []) = false := by
    rw [reuseRunways_eq]
    exact hreuse
  refine ⟨hfetch, ?_⟩
  rw [stepRow_ident hiv htr]
  cases hmv : alookup ((alookup exA iv).getD []) "metar_available" with
  | some mv =>
    rw [stepIdent_fetch_wSkip rfl hse hrr hmv k hD hM st stats]
    simp [hfetch]
  | none =>
    rw [stepIdent_fetch_wFetch rfl hse hrr hmv k hD hM st stats]
    simp [hfetch]

/-- Witness for C10 at a concrete eligible row with no API key. -/
theorem claim10_no_api_key_witness :
    fetch_airport_details none (fun _ => none) [] (Val.str "LFPG") =
      ([], [], false) ∧
    (stepRow none (fun _ => none) (fun _ => none) possible_columns []
        ⟨[], 0, 0⟩ stats0
        { ident := some (Val.str "LFPG"),
          type := some (Val.str "large_airport"),
          iso_country := some (Val.str "FR") }).2.2.airportdb_fetched =
      stats0.airportdb_fetched + 1 ∧
    (stepRow none (fun _ => none) (fun _ => none) possible_columns []
        ⟨[], 0, 0⟩ stats0
        { ident := some (Val.str "LFPG"),
          type := some (Val.str "large_airport"),
          iso_country := some (Val.str "FR") }).2.1.dCalls = 0 :=
  claim10_no_api_key none (fun _ => none) (fun _ => none) possible_columns []
    ⟨[], 0, 0⟩ stats0
    { ident := some (Val.str "LFPG"),
      type := some (Val.str "large_airport"),
      iso_country := some (Val.str "FR") } (Val.str "LFPG")
    (by decide) (by decide) (by decide) (by decide) (by decide)

/-- C5: a details-provider failure (transport error, non-2xx status,
malformed or non-dict payload — `hD iv` not a parsed dict) makes the
attempted fetch return an empty payload; the record keeps exactly the
fields it already had, gaining only its `metar_available` key, while
`airportdb_fetched` still increments, and no exception escapes (the
step is a total function).  A weather-provider failure stores
`metar_available = false`. -/
theorem claim5_provider_failure (k : Option String) (hD hM : Val → Option Val)
    (cols : List String) (exA : List (Val × Rec)) (st : RunState)
    (stats : Stats) (r : Row) (iv : Val)
    (hk : truthyKey k = true)
    (hc : alookup st.cache iv = none)
    (hiv : alookup (normalizeRow cols r) "ident" = some iv)
    (htr : iv.truthy = true)
    (hse : shouldEnrichB (normalizeRow cols r) = true)
    (hreuse : optTruthy (alookup ((alookup exA iv).getD []) "runways") = false)
    (hfail : ∀ o : ObjList, hD iv ≠ some (Val.obj o)) :
    fetch_airport_details k hD st.cache iv = ([], st.cache, true) ∧
    (∃ w, (stepRow k hD hM cols exA st stats r).1 =
        aset (normalizeRow cols r) "metar_available" w) ∧
    (stepRow k hD hM cols exA st stats r).2.2.airportdb_fetched =
      stats.airportdb_fetched + 1 ∧
    (alookup ((alookup exA iv).getD []) "metar_available" = none →
      hM iv = none →
      alookup (stepRow k hD hM cols exA st stats r).1 "metar_available" =
        some (Val.vbool false)) := by
  have hfetch : fetch_airport_details k hD st.cache iv = ([], st.cache, true) := by
    rw [fetch_uncached hk hc hD]
    cases hDi : hD iv with
    | none => rfl
    | some v =>
      cases v with
      | obj o => exact absurd hDi (hfail o)
      | str s => rfl
      | num n => rfl
      | vbool b => rfl
      | arr l => rfl
  have hrr : reuseRunways ((alookup exA iv).getD []) = false := by
    rw [reuseRunways_eq]
    exact hreuse
  refine ⟨hfetch, ?_⟩
  rw [stepRow_ident hiv htr]
  cases hmv : alookup ((alookup exA iv).getD []) "metar_available" with
  | some mv =>
    rw [stepIdent_fetch_wSkip rfl hse hrr hmv k hD hM st stats]
    refine ⟨⟨mv, by rw [hfetch, mergeDetails_nil]⟩, rfl, ?_⟩
    intro hmv' _
    exact Option.noConfusion hmv'
  | none =>
    rw [stepIdent_fetch_wFetch rfl hse hrr hmv k hD hM st stats]
    refine ⟨⟨Val.vbool (check_metar_available hM iv),
      by rw [hfetch, mergeDetails_nil]⟩, rfl, ?_⟩
    intro _ hMiv
    have hcm : check_metar_available hM iv = false := by
      unfold check_metar_available
      rw [hMiv]
    rw [hcm, alookup_aset_self]

/-- Witness for C5: failing providers on a concrete eligible row. -/
theorem claim5_provider_failure_witness :
    fetch_airport_details (some "key") (fun _ => none) [] (Val.str "LFPG") =
      ([], [], true) ∧
    (∃ w, (stepRow (some "key") (fun _ => none) (fun _ => none)
        possible_columns [] ⟨[], 0, 0⟩ stats0
        { ident := some (Val.str "LFPG"),
          type := some (Val.str "large_airport"),
          iso_country := some (Val.str "FR") }).1 =
      aset (normalizeRow possible_columns
        { ident := some (Val.str "LFPG"),
          type := some (Val.str "large_airport"),
          iso_country := some (Val.str "FR") }) "metar_available" w) ∧
    (stepRow (some "key") (fun _ => none) (fun _ => none)
        possible_columns [] ⟨[], 0, 0⟩ stats0
        { ident := some (Val.str "LFPG"),
          type := some (Val.str "large_airport"),
          iso_country := some (Val.str "FR") }).2.2.airportdb_fetched =
      stats0.airportdb_fetched + 1 ∧
    (alookup ((alookup ([] : List (Val × Rec)) (Val.str "LFPG")).getD [])
        "metar_available" = none →
      (fun (_ : Val) => (none : Option Val)) (Val.str "LFPG") = none →
      alookup (stepRow (some "key") (fun _ => none) (fun _ => none)
          possible_columns [] ⟨[], 0, 0⟩ stats0
          { ident := some (Val.str "LFPG"),
            type := some (Val.str "large_airport"),
            iso_country := some (Val.str "FR") }).1 "metar_available" =
        some (Val.vbool false)) :=
  claim5_provider_failure (some "key") (fun _ => none) (fun _ => none)
    possible_columns [] ⟨[], 0, 0⟩ stats0
    { ident := some (Val.str "LFPG"),
      type := some (Val.str "large_airport"),
      iso_country := some (Val.str "FR") } (Val.str "LFPG")
    (by decide) (by decide) (by decide) (by decide) (by decide) (by decide)
    (fun o h => by cases h)

/-- C2: for an eligible airport with a usable identifier, the weather
facet is reused exactly when the persisted record has the
`metar_available` key at all: the persisted value is copied verbatim
(whatever it is, even `false`), `metar_skipped` increments and no
weather request is made.  Without the key, one weather request is made,
`metar_fetched` increments, and the stored boolean is true exactly when
the provider returned a non-empty list or dict. -/
theorem claim2_weather_facet (k : Option String) (hD hM : Val → Option Val)
    (cols : List String) (exA : List (Val × Rec)) (st : RunState)
    (stats : Stats) (r : Row) (iv : Val)
    (hiv : alookup (normalizeRow cols r) "ident" = some iv)
    (htr : iv.truthy = true)
    (hse : shouldEnrichB (normalizeRow cols r) = true) :
    (∀ mv, alookup ((alookup exA iv).getD []) "metar_available" = some mv →
      alookup (stepRow k hD hM cols exA st stats r).1 "metar_available" = some mv ∧
      (stepRow k hD hM cols exA st stats r).2.2.metar_skipped =
        stats.metar_skipped + 1 ∧
      (stepRow k hD hM cols exA st stats r).2.2.metar_fetched =
        stats.metar_fetched ∧
      (stepRow k hD hM cols exA st stats r).2.1.mCalls = st.mCalls) ∧
    (alookup ((alookup exA iv).getD []) "metar_available" = none →
      alookup (stepRow k hD hM cols exA st stats r).1 "metar_available" =
        some (Val.vbool (check_metar_available hM iv)) ∧
      (stepRow k hD hM cols exA st stats r).2.2.metar_fetched =
        stats.metar_fetched + 1 ∧
      (stepRow k hD hM cols exA st stats r).2.2.metar_skipped =
        stats.metar_skipped ∧
      (stepRow k hD hM cols exA st stats r).2.1.mCalls = st.mCalls + 1 ∧
      (check_metar_available hM iv = true ↔
        (∃ o, hM iv = some (Val.obj o) ∧ o ≠ ObjList.nil) ∨
        (∃ l, hM iv = some (Val.arr l) ∧ l ≠ ValList.nil))) := by
  rw [stepRow_ident hiv htr]
  constructor
  · intro mv hmv
    cases hrr : reuseRunways ((alookup exA iv).getD []) with
    | true =>
      rw [stepIdent_reuse_wSkip rfl hse hrr hmv k hD hM st stats]
      exact ⟨alookup_aset_self _ _ _, rfl, rfl, rfl⟩
    | false =>
      rw [stepIdent_fetch_wSkip rfl hse hrr hmv k hD hM st stats]
      exact ⟨alookup_aset_self _ _ _, rfl, rfl, rfl⟩
  · intro hmv
    have hiff : check_metar_available hM iv = true ↔
        (∃ o, hM iv = some (Val.obj o) ∧ o ≠ ObjList.nil) ∨
        (∃ l, hM iv = some (Val.arr l) ∧ l ≠ ValList.nil) := by
      unfold check_metar_available
      cases hMi : hM iv with
      | none => simp
      | some v =>
        cases v with
        | obj o =>
          cases o with
          | nil => simp
          | cons ky vl tl => simp
        | arr l =>
          cases l with
          | nil => simp
          | cons vl tl => simp
        | str s => simp
        | num n => simp
        | vbool b => simp
    cases hrr : reuseRunways ((alookup exA iv).getD []) with
    | true =>
      rw [stepIdent_reuse_wFetch rfl hse hrr hmv k hD hM st stats]
      exact ⟨alookup_aset_self _ _ _, rfl, rfl, rfl, hiff⟩
    | false =>
      rw [stepIdent_fetch_wFetch rfl hse hrr hmv k hD hM st stats]
      exact ⟨alookup_aset_self _ _ _, rfl, rfl, rfl, hiff⟩

/-- Witness for C2: persisted record with `metar_available = false` is
still reused (one concrete instance of each hypothesis). -/
theorem claim2_weather_facet_witness :
    alookup (stepRow (some "key") (fun _ => none)
        (fun _ => some (Val.arr (ValList.cons (Val.num 1) ValList.nil)))
        possible_columns
        [(Val.str "LFPG", [("ident", Val.str "LFPG"),
          ("metar_available", Val.vbool false)])]
        ⟨[], 0, 0⟩ stats0
        { ident := some (Val.str "LFPG"),
          type := some (Val.str "large_airport"),
          iso_country := some (Val.str "FR") }).1 "metar_available" =
      some (Val.vbool false) ∧
    (stepRow (some "key") (fun _ => none)
        (fun _ => some (Val.arr (ValList.cons (Val.num 1) ValList.nil)))
        possible_columns
        [(Val.str "LFPG", [("ident", Val.str "LFPG"),
          ("metar_available", Val.vbool false)])]
        ⟨[], 0, 0⟩ stats0
        { ident := some (Val.str "LFPG"),
          type := some (Val.str "large_airport"),
          iso_country := some (Val.str "FR") }).2.1.mCalls = 0 := by
  have h := (claim2_weather_facet (some "key") (fun _ => none)
    (fun _ => some (Val.arr (ValList.cons (Val.num 1) ValList.nil)))
    possible_columns
    [(Val.str "LFPG", [("ident", Val.str "LFPG"),
      ("metar_available", Val.vbool false)])]
    ⟨[], 0, 0⟩ stats0
    { ident := some (Val.str "LFPG"),
      type := some (Val.str "large_airport"),
      iso_country := some (Val.str "FR") } (Val.str "LFPG")
    (by decide) (by decide) (by decide)).1 (Val.vbool false) (by decide)
  exact ⟨h.1, h.2.2.2⟩

theorem optTruthy_isSome {ov : Option Val} (h : optTruthy ov = true) :
    ov.isSome = true := by
  cases ov with
  | none => exact absurd h (by simp [optTruthy])
  | some v => rfl

theorem alookup_mergeDetails {d : Rec} (hnd : NodupKeys d) (ad : Rec)
    {x : String} (hx : x ∈ akeys d) :
    alookup (mergeDetails ad d) x = alookup d x := by
  cases d with
  | nil => simp at hx
  | cons hd tl =>
    obtain ⟨k0, v0⟩ := hd
    simp only [mergeDetails]
    cases hrw : alookup ((k0, v0) :: tl) "runways" with
    | some rv =>
      dsimp only
      by_cases hrt : rv.truthy = true
      · rw [if_pos hrt]
        by_cases hxr : x = "runways"
        · subst hxr
          rw [alookup_aset_self, hrw]
        · rw [alookup_aset_ne _ hxr]
          exact alookup_update_nodup _ ad hnd hx
      · rw [if_neg hrt]
        exact alookup_update_nodup _ ad hnd hx
    | none =>
      dsimp only
      exact alookup_update_nodup _ ad hnd hx

/-- C8: when the details facet is reused from the persisted record,
every key present in the persisted record — base source-derived fields
included — ends up with the persisted value in the output record, so any
change in the source row at such a key is discarded. -/
theorem claim8_reuse_overwrites_base (k : Option String)
    (hD hM : Val → Option Val) (cols : List String)
    (exA : List (Val × Rec)) (st : RunState) (stats : Stats) (r : Row)
    (iv : Val) (existing : Rec)
    (hiv : alookup (normalizeRow cols r) "ident" = some iv)
    (htr : iv.truthy = true)
    (hse : shouldEnrichB (normalizeRow cols r) = true)
    (hex : (alookup exA iv).getD [] = existing)
    (hnd : NodupKeys existing)
    (hreuse : optTruthy (alookup existing "runways") = true) :
    ∀ x v, alookup existing x = some v →
      alookup (stepRow k hD hM cols exA st stats r).1 x = some v := by
  have hrr : reuseRunways existing = true := by
    rw [reuseRunways_eq]
    exact hreuse
  rw [stepRow_ident hiv htr]
  intro x v hxv
  have hmem : x ∈ akeys existing :=
    alookup_isSome_iff.mp (by rw [hxv]; rfl)
  cases hmv : alookup existing "metar_available" with
  | some mv =>
    rw [stepIdent_reuse_wSkip hex hse hrr hmv k hD hM st stats]
    by_cases hxm : x = "metar_available"
    · subst hxm
      rw [alookup_aset_self]
      rw [hmv] at hxv
      exact hxv
    · rw [alookup_aset_ne _ hxm, alookup_update_nodup _ _ hnd hmem, hxv]
  | none =>
    rw [stepIdent_reuse_wFetch hex hse hrr hmv k hD hM st stats]
    by_cases hxm : x = "metar_available"
    · subst hxm
      rw [hmv] at hxv
      cases hxv
    · rw [alookup_aset_ne _ hxm, alookup_update_nodup _ _ hnd hmem, hxv]

/-- Witness for C8: a persisted record changes `name` and `type`, and
both persisted values survive into the output record. -/
theorem claim8_reuse_overwrites_base_witness :
    alookup (stepRow (some "testkey") (fun _ => none) (fun _ => none)
        possible_columns
        [(Val.str "LFPG", [("ident", Val.str "LFPG"),
          ("name", Val.str "Old Name"),
          ("runways", Val.arr (ValList.cons (Val.num 99) ValList.nil))])]
        ⟨[], 0, 0⟩ stats0
        { ident := some (Val.str "LFPG"),
          type := some (Val.str "large_airport"),
          name := some (Val.str "New Name"),
          iso_country := some (Val.str "FR") }).1 "name" =
      some (Val.str "Old Name") :=
  claim8_reuse_overwrites_base (some "testkey") (fun _ => none)
    (fun _ => none) possible_columns
    [(Val.str "LFPG", [("ident", Val.str "LFPG"),
      ("name", Val.str "Old Name"),
      ("runways", Val.arr (ValList.cons (Val.num 99) ValList.nil))])]
    ⟨[], 0, 0⟩ stats0
    { ident := some (Val.str "LFPG"),
      type := some (Val.str "large_airport"),
      name := some (Val.str "New Name"),
      iso_country := some (Val.str "FR") } (Val.str "LFPG")
    [("ident", Val.str "LFPG"), ("name", Val.str "Old Name"),
      ("runways", Val.arr (ValList.cons (Val.num 99) ValList.nil))]
    (by decide) (by decide) (by decide) (by decide) (by decide) (by decide)
    "name" (Val.str "Old Name") (by decide)

/-- C1: for an eligible airport with a usable identifier, and a live
API key with no prior cache entry for it: the details facet is reused
without an HTTP request, with `airportdb_skipped` incremented and the
persisted payload merged over the record, exactly when the persisted
record exists and carries a truthy runway list; otherwise one request is
made, `airportdb_fetched` increments, and a non-empty dict response has
all its fields merged into the record with a truthy returned runway list
landing in the record's `runways` field. -/
theorem claim1_details_facet (k : Option String) (hD hM : Val → Option Val)
    (cols : List String) (exA : List (Val × Rec)) (st : RunState)
    (stats : Stats) (r : Row) (iv : Val) (existing : Rec)
    (hiv : alookup (normalizeRow cols r) "ident" = some iv)
    (htr : iv.truthy = true)
    (hse : shouldEnrichB (normalizeRow cols r) = true)
    (hex : (alookup exA iv).getD [] = existing)
    (hnd : NodupKeys existing)
    (hkey : truthyKey k = true)
    (hcache : alookup st.cache iv = none) :
    (optTruthy (alookup existing "runways") = true ↔
      ∃ e, alookup exA iv = some e ∧ optTruthy (alookup e "runways") = true) ∧
    (optTruthy (alookup existing "runways") = true →
      (stepRow k hD hM cols exA st stats r).2.1.dCalls = st.dCalls ∧
      (stepRow k hD hM cols exA st stats r).2.2.airportdb_skipped =
        stats.airportdb_skipped + 1 ∧
      (stepRow k hD hM cols exA st stats r).2.2.airportdb_fetched =
        stats.airportdb_fetched ∧
      ∀ x v, alookup existing x = some v → x ≠ "metar_available" →
        alookup (stepRow k hD hM cols exA st stats r).1 x = some v) ∧
    (optTruthy (alookup existing "runways") = false →
      (stepRow k hD hM cols exA st stats r).2.2.airportdb_fetched =
        stats.airportdb_fetched + 1 ∧
      (stepRow k hD hM cols exA st stats r).2.2.airportdb_skipped =
        stats.airportdb_skipped ∧
      (stepRow k hD hM cols exA st stats r).2.1.dCalls = st.dCalls + 1 ∧
      ∀ o : ObjList, hD iv = some (Val.obj o) → o ≠ ObjList.nil →
        NodupKeys o.toList →
        (∀ x v, alookup o.toList x = some v → x ≠ "metar_available" →
          alookup (stepRow k hD hM cols exA st stats r).1 x = some v) ∧
        (optTruthy (alookup o.toList "runways") = true →
          alookup (stepRow k hD hM cols exA st stats r).1 "runways" =
            alookup o.toList "runways")) := by
  refine ⟨?_, ?_, ?_⟩
  · constructor
    · intro h
      cases halo : alookup exA iv with
      | none =>
        rw [halo] at hex
        simp only [Option.getD_none] at hex
        rw [← hex] at h
        simp [alookup, optTruthy] at h
      | some e =>
        rw [halo] at hex
        simp only [Option.getD_some] at hex
        exact ⟨e, rfl, by rw [hex]; exact h⟩
    · rintro ⟨e, he, hrw⟩
      rw [he] at hex
      simp only [Option.getD_some] at hex
      rw [← hex]
      exact hrw
  · intro hreuse
    have hrr : reuseRunways existing = true := by
      rw [reuseRunways_eq]
      exact hreuse
    rw [stepRow_ident hiv htr]
    cases hmv : alookup existing "metar_available" with
    | some mv =>
      rw [stepIdent_reuse_wSkip hex hse hrr hmv k hD hM st stats]
      refine ⟨rfl, rfl, rfl, ?_⟩
      intro x v hxv hxm
      have hmem : x ∈ akeys existing := alookup_isSome_iff.mp (by rw [hxv]; rfl)
      rw [alookup_aset_ne _ hxm, alookup_update_nodup _ _ hnd hmem, hxv]
    | none =>
      rw [stepIdent_reuse_wFetch hex hse hrr hmv k hD hM st stats]
      refine ⟨rfl, rfl, rfl, ?_⟩
      intro x v hxv hxm
      have hmem : x ∈ akeys existing := alookup_isSome_iff.mp (by rw [hxv]; rfl)
      rw [alookup_aset_ne _ hxm, alookup_update_nodup _ _ hnd hmem, hxv]
  · intro hreuse
    have hrr : reuseRunways existing = false := by
      rw [reuseRunways_eq]
      exact hreuse
    have hcall : (fetch_airport_details k hD st.cache iv).2.2 = true := by
      rw [fetch_uncached hkey hcache]
      cases hDi : hD iv with
      | none => rfl
      | some v => cases v <;> rfl
    rw [stepRow_ident hiv htr]
    cases hmv : alookup existing "metar_available" with
    | some mv =>
      rw [stepIdent_fetch_wSkip hex hse hrr hmv k hD hM st stats]
      refine ⟨rfl, rfl, by simp [hcall], ?_⟩
      intro o hDo hone hndo
      have hf1 : (fetch_airport_details k hD st.cache iv).1 = o.toList := by
        rw [fetch_uncached hkey hcache, hDo]
      dsimp only
      rw [hf1]
      constructor
      · intro x v hxv hxm
        have hmem : x ∈ akeys o.toList :=
          alookup_isSome_iff.mp (by rw [hxv]; rfl)
        rw [alookup_aset_ne _ hxm, alookup_mergeDetails hndo _ hmem, hxv]
      · intro hrt
        have hmem : "runways" ∈ akeys o.toList :=
          alookup_isSome_iff.mp (optTruthy_isSome hrt)
        rw [alookup_aset_ne _ (by decide), alookup_mergeDetails hndo _ hmem]
    | none =>
      rw [stepIdent_fetch_wFetch hex hse hrr hmv k hD hM st stats]
      refine ⟨rfl, rfl, by simp [hcall], ?_⟩
      intro o hDo hone hndo
      have hf1 : (fetch_airport_details k hD st.cache iv).1 = o.toList := by
        rw [fetch_uncached hkey hcache, hDo]
      dsimp only
      rw [hf1]
      constructor
      · intro x v hxv hxm
        have hmem : x ∈ akeys o.toList :=
          alookup_isSome_iff.mp (by rw [hxv]; rfl)
        rw [alookup_aset_ne _ hxm, alookup_mergeDetails hndo _ hmem, hxv]
      · intro hrt
        have hmem : "runways" ∈ akeys o.toList :=
          alookup_isSome_iff.mp (optTruthy_isSome hrt)
        rw [alookup_aset_ne _ (by decide), alookup_mergeDetails hndo _ hmem]

/-- Witness for C1: a persisted record with a truthy runway list is
reused with no HTTP request and an incremented skip counter, keeping the
persisted runway value. -/
theorem claim1_details_facet_witness :
    (stepRow (some "testkey") (fun _ => none) (fun _ => none)
        possible_columns
        [(Val.str "LFPG", [("ident", Val.str "LFPG"),
          ("runways", Val.arr (ValList.cons (Val.num 99) ValList.nil))])]
        ⟨[], 0, 0⟩ stats0
        { ident := some (Val.str "LFPG"),
          type := some (Val.str "large_airport"),
          iso_country := some (Val.str "FR") }).2.1.dCalls = 0 ∧
    (stepRow (some "testkey") (fun _ => none) (fun _ => none)
        possible_columns
        [(Val.str "LFPG", [("ident", Val.str "LFPG"),
          ("runways", Val.arr (ValList.cons (Val.num 99) ValList.nil))])]
        ⟨[], 0, 0⟩ stats0
        { ident := some (Val.str "LFPG"),
          type := some (Val.str "large_airport"),
          iso_country := some (Val.str "FR") }).2.2.airportdb_skipped =
      stats0.airportdb_skipped + 1 ∧
    alookup (stepRow (some "testkey") (fun _ => none) (fun _ => none)
        possible_columns
        [(Val.str "LFPG", [("ident", Val.str "LFPG"),
          ("runways", Val.arr (ValList.cons (Val.num 99) ValList.nil))])]
        ⟨[], 0, 0⟩ stats0
        { ident := some (Val.str "LFPG"),
          type := some (Val.str "large_airport"),
          iso_country := some (Val.str "FR") }).1 "runways" =
      some (Val.arr (ValList.cons (Val.num 99) ValList.nil)) := by
  have h := (claim1_details_facet (some "testkey") (fun _ => none)
    (fun _ => none) possible_columns
    [(Val.str "LFPG", [("ident", Val.str "LFPG"),
      ("runways", Val.arr (ValList.cons (Val.num 99) ValList.nil))])]
    ⟨[], 0, 0⟩ stats0
    { ident := some (Val.str "LFPG"),
      type := some (Val.str "large_airport"),
      iso_country := some (Val.str "FR") } (Val.str "LFPG")
    [("ident", Val.str "LFPG"),
      ("runways", Val.arr (ValList.cons (Val.num 99) ValList.nil))]
    (by decide) (by decide) (by decide) (by decide) (by decide) (by decide)
    (by decide)).2.1 (by decide)
  exact ⟨h.1, h.2.1, h.2.2.2 "runways"
    (Val.arr (ValList.cons (Val.num 99) ValList.nil)) (by decide) (by decide)⟩

/-! ### Which countries can appear in the output -/

theorem mem_dedupFold {α : Type} [DecidableEq α] :
    ∀ (l acc : List α) (x : α),
      x ∈ l.foldl (fun acc x => if x ∈ acc then acc else acc ++ [x]) acc →
      x ∈ acc ∨ x ∈ l
  | [], _, _, h => Or.inl h
  | y :: tl, acc, x, h => by
    rcases mem_dedupFold tl _ x h with h' | h'
    · dsimp only at h'
      by_cases hy : y ∈ acc
      · rw [if_pos hy] at h'
        exact Or.inl h'
      · rw [if_neg hy] at h'
        rcases List.mem_append.mp h' with h' | h'
        · exact Or.inl h'
        · rcases List.mem_singleton.mp h' with rfl
          exact Or.inr (List.mem_cons_self _ _)
    · exact Or.inr (List.mem_cons_of_mem _ h')

theorem mem_dedupKeepFirst {α : Type} [DecidableEq α] {l : List α} {x : α}
    (h : x ∈ dedupKeepFirst l) : x ∈ l := by
  rcases mem_dedupFold l [] x h with h' | h'
  · simp at h'
  · exact h'

theorem orderedCountries_mem {t : Table} {c : Val}
    (h : c ∈ orderedCountries t) :
    ∃ r, r ∈ t.rows ∧ enrichableRow r = true ∧ r.iso_country = some c := by
  unfold orderedCountries at h
  by_cases hcont : t.cols.contains "continent" = true
  · rw [if_pos hcont] at h
    obtain ⟨p, hp, hpc⟩ := List.mem_map.mp h
    have hp' := mem_dedupKeepFirst hp
    obtain ⟨r, hr, hfr⟩ := List.mem_filterMap.mp hp'
    obtain ⟨hrt, hre⟩ := List.mem_filter.mp hr
    refine ⟨r, hrt, hre, ?_⟩
    cases hiso : r.iso_country with
    | none => rw [hiso] at hfr; cases hfr
    | some c' =>
      rw [hiso] at hfr
      cases hfr
      rw [← hpc]
  · rw [if_neg hcont] at h
    have h' := mem_dedupKeepFirst h
    obtain ⟨r, hr, hfr⟩ := List.mem_filterMap.mp h'
    obtain ⟨hrt, hre⟩ := List.mem_filter.mp hr
    exact ⟨r, hrt, hre, hfr⟩

theorem alookup_aset_isSome_cases {κ β : Type} [DecidableEq κ]
    {m : List (κ × β)} {k x : κ} {v : β}
    (h : (alookup (aset m k v) x).isSome = true) :
    x = k ∨ (alookup m x).isSome = true := by
  by_cases hx : x = k
  · exact Or.inl hx
  · rw [alookup_aset_ne _ hx] at h
    exact Or.inr h

theorem procFold_countries_mem (k : Option String) (hD hM : Val → Option Val)
    (persisted : Val → List Rec) (cols : List String) (enr : List Row) :
    ∀ (l : List Val) (out : RunOut) (c : Val),
      (alookup (l.foldl (procStep k hD hM persisted cols enr) out).countries_data
        c).isSome = true →
      (alookup out.countries_data c).isSome = true ∨ c ∈ l
  | [], _, _, h => Or.inl h
  | c' :: tl, out, c, h => by
    rcases procFold_countries_mem k hD hM persisted cols enr tl _ c h with h' | h'
    · unfold procStep at h'
      rcases alookup_aset_isSome_cases h' with h' | h'
      · exact Or.inr (h' ▸ List.mem_cons_self _ _)
      · exact Or.inl h'
    · exact Or.inr (List.mem_cons_of_mem _ h')

theorem countries_data_mem_ordered (k : Option String)
    (hD hM : Val → Option Val) (persisted : Val → List Rec) (t : Table)
    (c : Val)
    (h : (alookup (process_airports k hD hM persisted t).countries_data
      c).isSome = true) : c ∈ orderedCountries t := by
  unfold process_airports at h
  rcases procFold_countries_mem k hD hM persisted t.cols
    (t.rows.filter enrichableRow) (orderedCountries t) _ c h with h' | h'
  · simp [alookup] at h'
  · exact h'

/-- C3 counterexample: in the spec's concrete scenario the output has no
US bucket at all (and no US counters), contradicting the claim that a
non-eligible airport still appears in its country's bucket with
`weather_available = false`. -/
theorem claim3_counterexample :
    alookup scRun.countries_data (Val.str "US") = none ∧
    alookup scRun.api_stats (Val.str "US") = none := by
  constructor <;> decide

/-- C3 amended: an airport failing the eligibility filter is excluded
before processing: a country can only appear in the output if some
enrichable (eligible-typed, allow-listed) source row carries it, no
skip counters are maintained for excluded airports, and in the concrete
scenario the output holds exactly the GB and FR buckets (one enriched
record each) and no US bucket. -/
theorem claim3_amended :
    (∀ (k : Option String) (hD hM : Val → Option Val)
      (persisted : Val → List Rec) (t : Table) (c : Val),
      (alookup (process_airports k hD hM persisted t).countries_data
        c).isSome = true →
      ∃ r, r ∈ t.rows ∧ enrichableRow r = true ∧ r.iso_country = some c) ∧
    akeys scRun.countries_data = [Val.str "GB", Val.str "FR"] ∧
    alookup scRun.countries_data (Val.str "US") = none ∧
    (alookup scRun.countries_data (Val.str "GB")).map List.length = some 1 ∧
    (alookup scRun.countries_data (Val.str "FR")).map List.length = some 1 ∧
    (alookup scRun.countries_data (Val.str "FR")).map
      (fun recs => recs.map (fun a => alookup a "city")) =
      some [some (Val.str "Test City")] ∧
    (alookup scRun.countries_data (Val.str "FR")).map
      (fun recs => recs.map (fun a => alookup a "metar_available")) =
      some [some (Val.vbool true)] ∧
    alookup scRun.api_stats (Val.str "FR") = some ⟨1, 0, 1, 0⟩ ∧
    alookup scRun.api_stats (Val.str "GB") = some ⟨1, 0, 1, 0⟩ := by
  refine ⟨?_, by decide, by decide, by decide, by decide, by decide,
    by decide, by decide, by decide⟩
  intro k hD hM persisted t c h
  exact orderedCountries_mem (countries_data_mem_ordered k hD hM persisted t c h)

/-! ### Counter bookkeeping (C4) -/

theorem stepRow_pairSums (k : Option String) (hD hM : Val → Option Val)
    (cols : List String) (exA : List (Val × Rec)) (st : RunState)
    (stats : Stats) (r : Row) :
    ((stepRow k hD hM cols exA st stats r).2.2.airportdb_fetched +
      (stepRow k hD hM cols exA st stats r).2.2.airportdb_skipped =
      stats.airportdb_fetched + stats.airportdb_skipped +
        (if identTruthyRow cols r then 1 else 0)) ∧
    ((stepRow k hD hM cols exA st stats r).2.2.metar_fetched +
      (stepRow k hD hM cols exA st stats r).2.2.metar_skipped =
      stats.metar_fetched + stats.metar_skipped +
        (if identTruthyRow cols r then 1 else 0)) := by
  unfold identTruthyRow
  cases hiv : alookup (normalizeRow cols r) "ident" with
  | none =>
    rw [stepRow_ident_none hiv k hD hM exA st stats]
    simp [optTruthy]
  | some iv =>
    cases htr : iv.truthy with
    | false =>
      rw [stepRow_ident_falsy hiv htr k hD hM exA st stats]
      simp [optTruthy, htr]
    | true =>
      rw [stepRow_ident hiv htr k hD hM exA st stats]
      have hot : optTruthy (some iv) = true := by simp [optTruthy, htr]
      rw [hot, if_pos rfl]
      cases hse : shouldEnrichB (normalizeRow cols r) with
      | false =>
        rw [stepIdent_nonEnrich rfl hse k hD hM st stats]
        dsimp only
        omega
      | true =>
        cases hrr : reuseRunways ((alookup exA iv).getD []) with
        | true =>
          cases hmv : alookup ((alookup exA iv).getD []) "metar_available" with
          | some mv =>
            rw [stepIdent_reuse_wSkip rfl hse hrr hmv k hD hM st stats]
            dsimp only
            omega
          | none =>
            rw [stepIdent_reuse_wFetch rfl hse hrr hmv k hD hM st stats]
            dsimp only
            omega
        | false =>
          cases hmv : alookup ((alookup exA iv).getD []) "metar_available" with
          | some mv =>
            rw [stepIdent_fetch_wSkip rfl hse hrr hmv k hD hM st stats]
            dsimp only
            omega
          | none =>
            rw [stepIdent_fetch_wFetch rfl hse hrr hmv k hD hM st stats]
            dsimp only
            omega

theorem processRows_pairSums (k : Option String) (hD hM : Val → Option Val)
    (cols : List String) (exA : List (Val × Rec)) :
    ∀ (rows : List Row) (st : RunState) (stats : Stats),
      ((processRows k hD hM cols exA st stats rows).2.1.airportdb_fetched +
        (processRows k hD hM cols exA st stats rows).2.1.airportdb_skipped =
        stats.airportdb_fetched + stats.airportdb_skipped +
          rows.countP (identTruthyRow cols)) ∧
      ((processRows k hD hM cols exA st stats rows).2.1.metar_fetched +
        (processRows k hD hM cols exA st stats rows).2.1.metar_skipped =
        stats.metar_fetched + stats.metar_skipped +
          rows.countP (identTruthyRow cols))
  | [], st, stats => by simp [processRows]
  | r :: rest, st, stats => by
    have hstep := stepRow_pairSums k hD hM cols exA st stats r
    have hrest := processRows_pairSums k hD hM cols exA rest
      (stepRow k hD hM cols exA st stats r).2.1
      (stepRow k hD hM cols exA st stats r).2.2
    unfold processRows
    rw [List.countP_cons]
    constructor
    · rw [hrest.1, hstep.1]
      by_cases hid : identTruthyRow cols r = true <;> simp [hid] <;> omega
    · rw [hrest.2, hstep.2]
      by_cases hid : identTruthyRow cols r = true <;> simp [hid] <;> omega

theorem alookup_aset_some_cases {κ β : Type} [DecidableEq κ]
    {m : List (κ × β)} {k x : κ} {v s : β}
    (h : alookup (aset m k v) x = some s) :
    (x = k ∧ s = v) ∨ alookup m x = some s := by
  by_cases hx : x = k
  · subst hx
    rw [alookup_aset_self] at h
    cases h
    exact Or.inl ⟨rfl, rfl⟩
  · rw [alookup_aset_ne _ hx] at h
    exact Or.inr h

theorem procFold_stats_sums (k : Option String) (hD hM : Val → Option Val)
    (persisted : Val → List Rec) (cols : List String) (enr : List Row) :
    ∀ (l : List Val) (out : RunOut),
      (∀ c s, alookup out.api_stats c = some s →
        (s.airportdb_fetched + s.airportdb_skipped =
          (enr.filter (fun r => r.iso_country = some c)).countP
            (identTruthyRow cols)) ∧
        (s.metar_fetched + s.metar_skipped =
          (enr.filter (fun r => r.iso_country = some c)).countP
            (identTruthyRow cols))) →
      ∀ c s,
        alookup (l.foldl (procStep k hD hM persisted cols enr) out).api_stats
          c = some s →
        (s.airportdb_fetched + s.airportdb_skipped =
          (enr.filter (fun r => r.iso_country = some c)).countP
            (identTruthyRow cols)) ∧
        (s.metar_fetched + s.metar_skipped =
          (enr.filter (fun r => r.iso_country = some c)).countP
            (identTruthyRow cols))
  | [], _, hout, c, s, h => hout c s h
  | c' :: tl, out, hout, c, s, h => by
    refine procFold_stats_sums k hD hM persisted cols enr tl _ ?_ c s h
    intro c2 s2 h2
    unfold procStep at h2
    rcases alookup_aset_some_cases h2 with ⟨rfl, rfl⟩ | h2
    · have hp := processRows_pairSums k hD hM cols
        (loadPersist (persisted c2)) (enr.filter (fun r => r.iso_country = some c2))
        out.state stats0
      simpa [stats0] using hp
    · exact hout c2 s2 h2

/-- C4 counterexample: a single eligible FR row without any identifier.
The engine appends the record but increments no counter, so the final
counters sum to 0 while the eligible-airport count is 1. -/
theorem claim4_counterexample :
    alookup (process_airports (some "testkey") (fun _ => none) (fun _ => none)
      (fun _ => []) ⟨possible_columns,
        [{ type := some (Val.str "large_airport"),
           iso_country := some (Val.str "FR") }]⟩).api_stats (Val.str "FR") =
      some stats0 ∧
    eligibleCount ⟨possible_columns,
      [{ type := some (Val.str "large_airport"),
         iso_country := some (Val.str "FR") }]⟩ (Val.str "FR") = 1 ∧
    stats0.airportdb_fetched + stats0.airportdb_skipped ≠ 1 ∧
    stats0.metar_fetched + stats0.metar_skipped ≠ 1 := by
  refine ⟨by decide, by decide, by decide, by decide⟩

/-- C4 amended: for every country in the final statistics, each pair of
counters sums to the number of eligible airports of that country that
carry a usable identifier (identifier-less eligible rows take no
enrichment decision and are not counted). -/
theorem claim4_amended (k : Option String) (hD hM : Val → Option Val)
    (persisted : Val → List Rec) (t : Table) (c : Val) (s : Stats)
    (h : alookup (process_airports k hD hM persisted t).api_stats c = some s) :
    s.airportdb_fetched + s.airportdb_skipped = eligibleIdentCount t c ∧
    s.metar_fetched + s.metar_skipped = eligibleIdentCount t c := by
  have hcp : (((t.rows.filter enrichableRow).filter
      (fun r => r.iso_country = some c)).countP (identTruthyRow t.cols)) =
      eligibleIdentCount t c := by
    unfold eligibleIdentCount
    rw [List.countP_eq_length_filter]
  rw [← hcp]
  exact procFold_stats_sums k hD hM persisted t.cols
    (t.rows.filter enrichableRow) (orderedCountries t) _
    (fun c2 s2 h2 => by simp [alookup] at h2) c s h

/-- Witness for C4 amended, on the concrete scenario's FR country. -/
theorem claim4_amended_witness :
    (1 : Nat) + 0 = eligibleIdentCount scTable (Val.str "FR") ∧
    (1 : Nat) + 0 = eligibleIdentCount scTable (Val.str "FR") := by
  have h := claim4_amended (some "testkey") scDetails scMetar (fun _ => [])
    scTable (Val.str "FR") ⟨1, 0, 1, 0⟩ (by decide)
  exact h

/-! ### Stable sort lemmas (C7) -/

theorem mem_insertStable {α : Type} (le : α → α → Bool) (x : α) :
    ∀ (l : List α) (z : α), z ∈ insertStable le x l → z = x ∨ z ∈ l
  | [], z, h => Or.inl (List.mem_singleton.mp h)
  | y :: ys, z, h => by
    unfold insertStable at h
    by_cases hle : le y x = true
    · rw [if_pos hle] at h
      rcases List.mem_cons.mp h with h | h
      · exact Or.inr (h ▸ List.mem_cons_self _ _)
      · rcases mem_insertStable le x ys z h with h | h
        · exact Or.inl h
        · exact Or.inr (List.mem_cons_of_mem _ h)
    · rw [if_neg hle] at h
      rcases List.mem_cons.mp h with h | h
      · exact Or.inl h
      · exact Or.inr h

theorem insertStable_split {α : Type} (le : α → α → Bool) (x : α) :
    ∀ (l : List α), ∃ l1 l2, insertStable le x l = l1 ++ x :: l2 ∧
      l = l1 ++ l2 ∧ (∀ y ∈ l1, le y x = true) ∧
      (∀ h t, l2 = h :: t → le h x = false)
  | [] => ⟨[], [], rfl, rfl, by simp, by intro h t ht; cases ht⟩
  | y :: ys => by
    by_cases hle : le y x = true
    · obtain ⟨l1, l2, heq, hl, h1, h2⟩ := insertStable_split le x ys
      refine ⟨y :: l1, l2, ?_, by rw [List.cons_append, ← hl], ?_, h2⟩
      · unfold insertStable
        rw [if_pos hle, heq, List.cons_append]
      · intro z hz
        rcases List.mem_cons.mp hz with rfl | hz
        · exact hle
        · exact h1 z hz
    · refine ⟨[], y :: ys, ?_, rfl, by simp, ?_⟩
      · unfold insertStable
        rw [if_neg hle]
        rfl
      · intro h t ht
        injection ht with h1 _
        rw [← h1]
        exact Bool.of_not_eq_true hle

theorem pairwise_insertStable {α : Type} {le : α → α → Bool} {P : α → Prop}
    (htot : ∀ a b, P a → P b → le a b = true ∨ le b a = true)
    (htrans : ∀ a b c, P a → P b → P c →
      le a b = true → le b c = true → le a c = true) :
    ∀ (l : List α) (x : α), P x → (∀ y ∈ l, P y) →
      l.Pairwise (fun a b => le a b = true) →
      (insertStable le x l).Pairwise (fun a b => le a b = true)
  | [], x, _, _, _ => by simp [insertStable]
  | y :: ys, x, hx, hP, hpw => by
    rw [List.pairwise_cons] at hpw
    unfold insertStable
    by_cases hle : le y x = true
    · rw [if_pos hle]
      rw [List.pairwise_cons]
      constructor
      · intro z hz
        rcases mem_insertStable le x ys z hz with rfl | hz
        · exact hle
        · exact hpw.1 z hz
      · exact pairwise_insertStable htot htrans ys x hx
          (fun z hz => hP z (List.mem_cons_of_mem _ hz)) hpw.2
    · rw [if_neg hle]
      have hPy : P y := hP y (List.mem_cons_self _ _)
      have hxy : le x y = true := by
        rcases htot x y hx hPy with h | h
        · exact h
        · exact absurd h hle
      rw [List.pairwise_cons]
      constructor
      · intro z hz
        rcases List.mem_cons.mp hz with rfl | hz
        · exact hxy
        · exact htrans x y z hx hPy (hP z (List.mem_cons_of_mem _ hz)) hxy
            (hpw.1 z hz)
      · rw [List.pairwise_cons]
        exact ⟨hpw.1, hpw.2⟩

theorem filter_insertStable {α : Type} {le : α → α → Bool} {P : α → Prop}
    (htrans : ∀ a b c, P a → P b → P c →
      le a b = true → le b c = true → le a c = true)
    (q : α → Bool) (x : α) (l : List α)
    (hx : P x) (hP : ∀ y ∈ l, P y)
    (hsorted : l.Pairwise (fun a b => le a b = true))
    (hstop : q x = true → ∀ y, P y → q y = true → le y x = true) :
    (insertStable le x l).filter q =
      l.filter q ++ (if q x then [x] else []) := by
  obtain ⟨l1, l2, heq, hl, h1, h2⟩ := insertStable_split le x l
  subst hl
  rw [heq, List.filter_append, List.filter_cons, List.filter_append]
  by_cases hqx : q x = true
  · rw [if_pos hqx, if_pos hqx]
    have hl2 : l2.filter q = [] := by
      rw [List.filter_eq_nil_iff]
      intro z hz hqz
      cases l2 with
      | nil => simp at hz
      | cons h2h h2t =>
        have hhx : le h2h x = false := h2 h2h h2t rfl
        rw [List.pairwise_append] at hsorted
        have hpw2 := hsorted.2.1
        rw [List.pairwise_cons] at hpw2
        rcases List.mem_cons.mp hz with rfl | hz
        · have := hstop hqx z (hP z (List.mem_append.mpr
            (Or.inr (List.mem_cons_self _ _)))) hqz
          rw [this] at hhx
          cases hhx
        · have hhz : le h2h z = true := hpw2.1 z hz
          have hzx : le z x = true := hstop hqx z (hP z (List.mem_append.mpr
            (Or.inr (List.mem_cons_of_mem _ hz)))) hqz
          have : le h2h x = true := htrans h2h z x
            (hP h2h (List.mem_append.mpr (Or.inr (List.mem_cons_self _ _))))
            (hP z (List.mem_append.mpr (Or.inr (List.mem_cons_of_mem _ hz))))
            hx hhz hzx
          rw [this] at hhx
          cases hhx
    rw [hl2]
    simp
  · have hqx' : q x = false := Bool.of_not_eq_true hqx
    rw [hqx']
    simp

theorem mem_sortFold {α : Type} (le : α → α → Bool) :
    ∀ (l acc : List α) (z : α),
      z ∈ l.foldl (fun acc x => insertStable le x acc) acc →
      z ∈ acc ∨ z ∈ l
  | [], _, _, h => Or.inl h
  | x :: tl, acc, z, h => by
    rcases mem_sortFold le tl _ z h with h' | h'
    · rcases mem_insertStable le x acc z h' with rfl | h'
      · exact Or.inr (List.mem_cons_self _ _)
      · exact Or.inl h'
    · exact Or.inr (List.mem_cons_of_mem _ h')

theorem pairwise_sortFold {α : Type} {le : α → α → Bool} {P : α → Prop}
    (htot : ∀ a b, P a → P b → le a b = true ∨ le b a = true)
    (htrans : ∀ a b c, P a → P b → P c →
      le a b = true → le b c = true → le a c = true) :
    ∀ (l acc : List α), (∀ y ∈ acc, P y) → (∀ y ∈ l, P y) →
      acc.Pairwise (fun a b => le a b = true) →
      (l.foldl (fun acc x => insertStable le x acc) acc).Pairwise
        (fun a b => le a b = true)
  | [], _, _, _, hpw => hpw
  | x :: tl, acc, hPacc, hPl, hpw => by
    refine pairwise_sortFold htot htrans tl _ ?_
      (fun y hy => hPl y (List.mem_cons_of_mem _ hy)) ?_
    · intro y hy
      rcases mem_insertStable le x acc y hy with rfl | hy
      · exact hPl y (List.mem_cons_self _ _)
      · exact hPacc y hy
    · exact pairwise_insertStable htot htrans acc x
        (hPl x (List.mem_cons_self _ _)) hPacc hpw

theorem filter_sortFold {α : Type} {le : α → α → Bool} {P : α → Prop}
    (htot : ∀ a b, P a → P b → le a b = true ∨ le b a = true)
    (htrans : ∀ a b c, P a → P b → P c →
      le a b = true → le b c = true → le a c = true)
    (q : α → Bool)
    (hstop : ∀ x y, P x → P y → q x = true → q y = true → le y x = true) :
    ∀ (l acc : List α), (∀ y ∈ acc, P y) → (∀ y ∈ l, P y) →
      acc.Pairwise (fun a b => le a b = true) →
      (l.foldl (fun acc x => insertStable le x acc) acc).filter q =
        acc.filter q ++ l.filter q
  | [], _, _, _, _ => by simp
  | x :: tl, acc, hPacc, hPl, hpw => by
    have hx : P x := hPl x (List.mem_cons_self _ _)
    have hPacc' : ∀ y ∈ insertStable le x acc, P y := by
      intro y hy
      rcases mem_insertStable le x acc y hy with rfl | hy
      · exact hx
      · exact hPacc y hy
    have hrec := filter_sortFold htot htrans q hstop tl (insertStable le x acc)
      hPacc' (fun y hy => hPl y (List.mem_cons_of_mem _ hy))
      (pairwise_insertStable htot htrans acc x hx hPacc hpw)
    calc ((x :: tl).foldl (fun acc x => insertStable le x acc) acc).filter q
      = (insertStable le x acc).filter q ++ tl.filter q := hrec
    _ = (acc.filter q ++ (if q x then [x] else [])) ++ tl.filter q := by
        rw [filter_insertStable htrans q x acc hx hPacc hpw
          (fun hqx y hPy hqy => hstop x y hx hPy hqx hqy)]
    _ = acc.filter q ++ (x :: tl).filter q := by
        rw [List.filter_cons]
        by_cases hqx : q x = true
        · rw [if_pos hqx, if_pos hqx, List.append_assoc]
          rfl
        · rw [if_neg hqx, if_neg hqx]
          simp

/-! ### Type-distribution counting (C7) -/

theorem sum_aset_bump (kv : Val) :
    ∀ (m : List (Val × Nat)),
      ((aset m kv ((alookup m kv).getD 0 + 1)).map Prod.snd).sum =
        (m.map Prod.snd).sum + 1
  | [] => by simp [aset, alookup]
  | (k', v') :: tl => by
    by_cases hk : k' = kv
    · subst hk
      rw [alookup_cons_self, aset_cons_self]
      simp [Nat.add_comm, Nat.add_assoc, Nat.add_left_comm]
    · rw [alookup_cons_ne hk, aset_cons_ne (fun hc => hk hc)]
      simp only [List.map_cons, List.sum_cons]
      rw [sum_aset_bump kv tl]
      omega

theorem typesFold_sum :
    ∀ (l : List Rec) (m : List (Val × Nat)),
      ((l.foldl (fun m a =>
          aset m (typeKey a) ((alookup m (typeKey a)).getD 0 + 1)) m).map
        Prod.snd).sum = (m.map Prod.snd).sum + l.length
  | [], _ => by simp
  | a :: tl, m => by
    rw [List.foldl_cons, typesFold_sum tl, sum_aset_bump]
    simp [Nat.add_comm, Nat.add_assoc, Nat.add_left_comm]

theorem sum_typesCount (airports : List Rec) :
    ((typesCount airports).map Prod.snd).sum = airports.length := by
  unfold typesCount
  rw [typesFold_sum]
  simp

theorem typesFold_counts (kv : Val) :
    ∀ (l : List Rec) (m : List (Val × Nat)),
      (alookup (l.foldl (fun m a =>
          aset m (typeKey a) ((alookup m (typeKey a)).getD 0 + 1)) m) kv).getD 0 =
        (alookup m kv).getD 0 + l.countP (fun a => decide (typeKey a = kv))
  | [], _ => by simp
  | a :: tl, m => by
    rw [List.foldl_cons, typesFold_counts kv tl, List.countP_cons]
    by_cases hk : typeKey a = kv
    · subst hk
      rw [alookup_aset_self]
      simp
      omega
    · rw [alookup_aset_ne _ (fun hc => hk hc.symm)]
      simp [hk]

theorem typesCount_counts (airports : List Rec) (kv : Val) :
    (alookup (typesCount airports) kv).getD 0 =
      airports.countP (fun a => decide (typeKey a = kv)) := by
  unfold typesCount
  rw [typesFold_counts]
  simp [alookup]

/-- C7: the generated country index is sorted by display name with ties
kept in encounter order (for every name, the filtered subsequence equals
the filtered subsequence of the unsorted entry list); every entry stems
from a `countries_data` item, its `airport_count` is that country's list
length, its `types_distribution` sums to `airport_count`, and the bucket
of each type value counts the records whose effective type
(`airport.get('type', 'unknown')`) is that value — records lacking a
`type` key land in the literal `"unknown"` bucket. -/
theorem claim7_countries_index (names : Val → Option Val)
    (cd : List (Val × List Rec))
    (hstr : ∀ p ∈ cd, ∃ s, get_country_name names p.1 = Val.str s) :
    (generate_countries_index names cd).Pairwise
      (fun a b => nameLe a.name b.name = true) ∧
    (∀ n : Val, (generate_countries_index names cd).filter
        (fun e => decide (e.name = n)) =
      (cd.map (mkEntry names)).filter (fun e => decide (e.name = n))) ∧
    (∀ e ∈ generate_countries_index names cd, ∃ p, p ∈ cd ∧ e = mkEntry names p) ∧
    (∀ p ∈ cd, (mkEntry names p).airport_count = p.2.length ∧
      (((mkEntry names p).types_distribution).map Prod.snd).sum =
        (mkEntry names p).airport_count ∧
      ∀ v : Val, (alookup ((mkEntry names p).types_distribution) v).getD 0 =
        p.2.countP (fun a => decide (typeKey a = v))) := by
  have hPents : ∀ e ∈ cd.map (mkEntry names), ∃ s, e.name = Val.str s := by
    intro e he
    obtain ⟨p, hp, hpe⟩ := List.mem_map.mp he
    obtain ⟨s, hs⟩ := hstr p hp
    exact ⟨s, by rw [← hpe]; exact hs⟩
  have htot : ∀ a b : CountryEntry, (∃ s, a.name = Val.str s) →
      (∃ s, b.name = Val.str s) →
      entryLe a b = true ∨ entryLe b a = true := by
    rintro a b ⟨s, hs⟩ ⟨t, ht⟩
    unfold entryLe
    rw [hs, ht]
    unfold nameLe
    rcases le_total s t with h | h
    · exact Or.inl (by simpa using h)
    · exact Or.inr (by simpa using h)
  have htrans : ∀ a b c : CountryEntry, (∃ s, a.name = Val.str s) →
      (∃ s, b.name = Val.str s) → (∃ s, c.name = Val.str s) →
      entryLe a b = true → entryLe b c = true → entryLe a c = true := by
    rintro a b c ⟨s, hs⟩ ⟨t, ht⟩ ⟨u, hu⟩ hab hbc
    unfold entryLe at hab hbc ⊢
    rw [hs, ht] at hab
    rw [ht, hu] at hbc
    rw [hs, hu]
    unfold nameLe at hab hbc ⊢
    simp only [decide_eq_true_eq] at hab hbc ⊢
    exact le_trans hab hbc
  refine ⟨?_, ?_, ?_, ?_⟩
  · have h := pairwise_sortFold htot htrans (cd.map (mkEntry names)) []
      (by simp) hPents List.Pairwise.nil
    exact h
  · intro n
    have h := filter_sortFold htot htrans (fun e => decide (e.name = n))
      (by
        rintro x y ⟨s, hs⟩ ⟨t, ht⟩ hqx hqy
        simp only [decide_eq_true_eq] at hqx hqy
        unfold entryLe
        rw [hqy, ← hqx, hs]
        unfold nameLe
        simp) (cd.map (mkEntry names)) [] (by simp) hPents List.Pairwise.nil
    simpa using h
  · intro e he
    rcases mem_sortFold entryLe (cd.map (mkEntry names)) [] e he with h | h
    · simp at h
    · obtain ⟨p, hp, hpe⟩ := List.mem_map.mp h
      exact ⟨p, hp, hpe.symm⟩
  · intro p hp
    refine ⟨rfl, ?_, ?_⟩
    · exact sum_typesCount p.2
    · intro v
      exact typesCount_counts p.2 v

/-- Witness for C7 on a concrete two-country `countries_data` (France
sorts before United Kingdom; ties and counts as stated). -/
theorem claim7_countries_index_witness :
    (generate_countries_index
      (fun c => if c = Val.str "GB" then some (Val.str "United Kingdom")
        else if c = Val.str "FR" then some (Val.str "France") else none)
      [(Val.str "GB", [[("type", Val.str "large_airport")]]),
       (Val.str "FR", [[], [("type", Val.str "large_airport")]])]).Pairwise
      (fun a b => nameLe a.name b.name = true) ∧
    (∀ p ∈ [(Val.str "GB", [[("type", Val.str "large_airport")]]),
       (Val.str "FR", [[], [("type", Val.str "large_airport")]])],
      (mkEntry (fun c => if c = Val.str "GB" then some (Val.str "United Kingdom")
        else if c = Val.str "FR" then some (Val.str "France") else none)
        p).airport_count = p.2.length ∧
      (((mkEntry (fun c => if c = Val.str "GB" then some (Val.str "United Kingdom")
        else if c = Val.str "FR" then some (Val.str "France") else none)
        p).types_distribution).map Prod.snd).sum =
        (mkEntry (fun c => if c = Val.str "GB" then some (Val.str "United Kingdom")
          else if c = Val.str "FR" then some (Val.str "France") else none)
          p).airport_count ∧
      ∀ v : Val, (alookup ((mkEntry (fun c =>
          if c = Val.str "GB" then some (Val.str "United Kingdom")
          else if c = Val.str "FR" then some (Val.str "France") else none)
          p).types_distribution) v).getD 0 =
        p.2.countP (fun a => decide (typeKey a = v))) := by
  have h := claim7_countries_index
    (fun c => if c = Val.str "GB" then some (Val.str "United Kingdom")
      else if c = Val.str "FR" then some (Val.str "France") else none)
    [(Val.str "GB", [[("type", Val.str "large_airport")]]),
     (Val.str "FR", [[], [("type", Val.str "large_airport")]])]
    (by
      intro p hp
      rcases List.mem_cons.mp hp with rfl | hp
      · exact ⟨"United Kingdom", by decide⟩
      · rcases List.mem_cons.mp hp with rfl | hp
        · exact ⟨"France", by decide⟩
        · simp at hp)
  exact ⟨h.1, h.2.2.2⟩

/-! ### Cache-free characterization of a run (towards C6) -/

theorem fetch_pure {hD : Val → Option Val} {cache : List (Val × Rec)}
    (hOK : CacheOK hD cache) (k : Option String) (i : Val) :
    (fetch_airport_details k hD cache i).1 = fetchPure k hD i ∧
    CacheOK hD (fetch_airport_details k hD cache i).2.1 := by
  unfold fetch_airport_details fetchPure
  cases hk : truthyKey k with
  | false => exact ⟨rfl, hOK⟩
  | true =>
    simp only [Bool.not_true, Bool.false_eq_true, if_false]
    cases hc : alookup cache i with
    | some d =>
      obtain ⟨o, ho, hod⟩ := hOK i d hc
      rw [ho]
      exact ⟨hod.symm, hOK⟩
    | none =>
      cases hDi : hD i with
      | none => exact ⟨rfl, hOK⟩
      | some v =>
        cases v with
        | obj o =>
          refine ⟨rfl, ?_⟩
          intro i' d' h'
          rcases alookup_aset_some_cases h' with ⟨rfl, rfl⟩ | h'
          · exact ⟨o, hDi, rfl⟩
          · exact hOK i' d' h'
        | str s => exact ⟨rfl, hOK⟩
        | num n => exact ⟨rfl, hOK⟩
        | vbool b => exact ⟨rfl, hOK⟩
        | arr l => exact ⟨rfl, hOK⟩

theorem stepRow_pure {hD : Val → Option Val} {st : RunState}
    (hOK : CacheOK hD st.cache) (k : Option String) (hM : Val → Option Val)
    (cols : List String) (exA : List (Val × Rec)) (stats : Stats) (r : Row) :
    (stepRow k hD hM cols exA st stats r).1 = recOf k hD hM cols exA r ∧
    CacheOK hD (stepRow k hD hM cols exA st stats r).2.1.cache ∧
    (stepRow k hD hM cols exA st stats r).2.2 =
      statsAdd stats (stepDelta cols exA r) := by
  unfold recOf stepDelta
  cases hiv : alookup (normalizeRow cols r) "ident" with
  | none =>
    rw [stepRow_ident_none hiv k hD hM exA st stats]
    refine ⟨rfl, hOK, ?_⟩
    unfold statsAdd
    cases stats
    simp
  | some iv =>
    cases htr : iv.truthy with
    | false =>
      rw [stepRow_ident_falsy hiv htr k hD hM exA st stats]
      simp only [htr, Bool.false_eq_true, if_false]
      refine ⟨by trivial, hOK, ?_⟩
      unfold statsAdd
      cases stats
      simp
    | true =>
      rw [stepRow_ident hiv htr k hD hM exA st stats]
      simp only [htr, if_true]
      cases hse : shouldEnrichB (normalizeRow cols r) with
      | false =>
        rw [stepIdent_nonEnrich rfl hse k hD hM st stats]
        simp only [hse, Bool.false_eq_true, if_false]
        refine ⟨by trivial, hOK, ?_⟩
        unfold statsAdd
        cases stats
        simp
      | true =>
        simp only [hse, if_true]
        have hfp := fetch_pure hOK k iv
        cases hrr : reuseRunways ((alookup exA iv).getD []) with
        | true =>
          simp only [hrr, if_true]
          cases hmv : alookup ((alookup exA iv).getD []) "metar_available" with
          | some mv =>
            rw [stepIdent_reuse_wSkip rfl hse hrr hmv k hD hM st stats]
            refine ⟨rfl, hOK, ?_⟩
            unfold statsAdd
            cases stats
            simp
          | none =>
            rw [stepIdent_reuse_wFetch rfl hse hrr hmv k hD hM st stats]
            refine ⟨rfl, hOK, ?_⟩
            unfold statsAdd
            cases stats
            simp
        | false =>
          simp only [hrr, Bool.false_eq_true, if_false]
          cases hmv : alookup ((alookup exA iv).getD []) "metar_available" with
          | some mv =>
            rw [stepIdent_fetch_wSkip rfl hse hrr hmv k hD hM st stats]
            refine ⟨by dsimp only; rw [hfp.1], hfp.2, ?_⟩
            unfold statsAdd
            cases stats
            simp
          | none =>
            rw [stepIdent_fetch_wFetch rfl hse hrr hmv k hD hM st stats]
            refine ⟨by dsimp only; rw [hfp.1], hfp.2, ?_⟩
            unfold statsAdd
            cases stats
            simp

theorem processRows_pure (k : Option String) {hD : Val → Option Val}
    (hM : Val → Option Val) (cols : List String) (exA : List (Val × Rec)) :
    ∀ (rows : List Row) (st : RunState) (stats : Stats),
      CacheOK hD st.cache →
      (processRows k hD hM cols exA st stats rows).1 =
        rows.map (recOf k hD hM cols exA) ∧
      CacheOK hD (processRows k hD hM cols exA st stats rows).2.2.cache ∧
      (processRows k hD hM cols exA st stats rows).2.1 =
        rows.foldl (fun acc r => statsAdd acc (stepDelta cols exA r)) stats
  | [], _, _, hOK => ⟨rfl, hOK, rfl⟩
  | r :: rest, st, stats, hOK => by
    have hs := stepRow_pure hOK k hM cols exA stats r
    have hrec := processRows_pure k hM cols exA rest
      (stepRow k hD hM cols exA st stats r).2.1
      (stepRow k hD hM cols exA st stats r).2.2 hs.2.1
    unfold processRows
    refine ⟨?_, hrec.2.1, ?_⟩
    · dsimp only
      rw [hs.1, hrec.1, List.map_cons]
    · dsimp only
      rw [hrec.2.2, hs.2.2, List.foldl_cons]

theorem procStep_pure (k : Option String) {hD : Val → Option Val}
    (hM : Val → Option Val) (persisted : Val → List Rec) (cols : List String)
    (enr : List Row) {out : RunOut} (hOK : CacheOK hD out.state.cache)
    (c : Val) :
    (procStep k hD hM persisted cols enr out c).countries_data =
      aset out.countries_data c
        ((enr.filter (fun r => r.iso_country = some c)).map
          (recOf k hD hM cols (loadPersist (persisted c)))) ∧
    (procStep k hD hM persisted cols enr out c).api_stats =
      aset out.api_stats c
        ((enr.filter (fun r => r.iso_country = some c)).foldl
          (fun acc r => statsAdd acc
            (stepDelta cols (loadPersist (persisted c)) r)) stats0) ∧
    CacheOK hD (procStep k hD hM persisted cols enr out c).state.cache := by
  have hp := processRows_pure k hM cols (loadPersist (persisted c))
    (enr.filter (fun r => r.iso_country = some c)) out.state stats0 hOK
  unfold procStep
  refine ⟨?_, ?_, hp.2.1⟩
  · dsimp only
    rw [hp.1]
  · dsimp only
    rw [hp.2.2]

theorem procFold_pure (k : Option String) {hD : Val → Option Val}
    (hM : Val → Option Val) (persisted : Val → List Rec) (cols : List String)
    (enr : List Row) :
    ∀ (l : List Val) (out : RunOut), CacheOK hD out.state.cache →
      CacheOK hD
        ((l.foldl (procStep k hD hM persisted cols enr) out)).state.cache ∧
      (l.foldl (procStep k hD hM persisted cols enr) out).countries_data =
        l.foldl (fun m c => aset m c
          ((enr.filter (fun r => r.iso_country = some c)).map
            (recOf k hD hM cols (loadPersist (persisted c)))))
          out.countries_data ∧
      (l.foldl (procStep k hD hM persisted cols enr) out).api_stats =
        l.foldl (fun m c => aset m c
          ((enr.filter (fun r => r.iso_country = some c)).foldl
            (fun acc r => statsAdd acc
              (stepDelta cols (loadPersist (persisted c)) r)) stats0))
          out.api_stats
  | [], _, hOK => ⟨hOK, rfl, rfl⟩
  | c :: tl, out, hOK => by
    have hstep := procStep_pure k hM persisted cols enr hOK c
    have hrec := procFold_pure k hM persisted cols enr tl
      (procStep k hD hM persisted cols enr out c) hstep.2.2
    rw [List.foldl_cons, List.foldl_cons, List.foldl_cons]
    refine ⟨hrec.1, ?_, ?_⟩
    · rw [hrec.2.1, hstep.1]
    · rw [hrec.2.2, hstep.2.1]

theorem CacheOK_nil (hD : Val → Option Val) : CacheOK hD [] := by
  intro i d h
  simp [alookup] at h

theorem run_components (k : Option String) (hD hM : Val → Option Val)
    (persisted : Val → List Rec) (t : Table) :
    (process_airports k hD hM persisted t).countries_data =
      (orderedCountries t).foldl (fun m c => aset m c
        (runBucket k hD hM persisted t c)) [] ∧
    (process_airports k hD hM persisted t).api_stats =
      (orderedCountries t).foldl (fun m c => aset m c
        (runStats persisted t c)) [] := by
  have h := procFold_pure k hM persisted t.cols (t.rows.filter enrichableRow)
    (orderedCountries t) ⟨[], [], ⟨[], 0, 0⟩⟩ (CacheOK_nil hD)
  exact ⟨h.2.1, h.2.2⟩

theorem foldl_aset_lookup {κ β : Type} [DecidableEq κ] (f : κ → β) :
    ∀ (l : List κ) (m : List (κ × β)) (c : κ),
      alookup (l.foldl (fun m c => aset m c (f c)) m) c =
        if c ∈ l then some (f c) else alookup m c
  | [], m, c => by simp
  | c' :: tl, m, c => by
    rw [List.foldl_cons, foldl_aset_lookup f tl]
    by_cases htl : c ∈ tl
    · rw [if_pos htl, if_pos (List.mem_cons_of_mem _ htl)]
    · rw [if_neg htl]
      by_cases hc : c = c'
      · subst hc
        rw [alookup_aset_self, if_pos (List.mem_cons_self _ _)]
      · rw [alookup_aset_ne _ hc, if_neg (fun hm => by
          rcases List.mem_cons.mp hm with hm | hm
          · exact hc hm
          · exact htl hm)]

theorem foldl_aset_congr {κ β : Type} [DecidableEq κ] {f g : κ → β} :
    ∀ (l : List κ) (m : List (κ × β)), (∀ c ∈ l, f c = g c) →
      l.foldl (fun m c => aset m c (f c)) m =
        l.foldl (fun m c => aset m c (g c)) m
  | [], _, _ => rfl
  | c :: tl, m, h => by
    rw [List.foldl_cons, List.foldl_cons, h c (List.mem_cons_self _ _),
      foldl_aset_congr tl _ (fun c' hc' => h c' (List.mem_cons_of_mem _ hc'))]

/-! ### Persisted-state reuse mapping lemmas -/

theorem loadPersistAux_lookup_mem {iv : Val} :
    ∀ (L : List Rec) (m : List (Val × Rec)) (e : Rec),
      alookup (loadPersistAux m L) iv = some e →
      alookup m iv = some e ∨
        (e ∈ L ∧ alookup e "ident" = some iv ∧ iv.truthy = true)
  | [], _, _, h => Or.inl h
  | a :: tl, m, e, h => by
    unfold loadPersistAux at h
    cases hai : alookup a "ident" with
    | none =>
      simp only [hai] at h
      rcases loadPersistAux_lookup_mem tl _ e h with h' | h'
      · exact Or.inl h'
      · exact Or.inr ⟨List.mem_cons_of_mem _ h'.1, h'.2⟩
    | some jv =>
      simp only [hai] at h
      cases hjt : jv.truthy with
      | false =>
        simp only [hjt, Bool.false_eq_true, if_false] at h
        rcases loadPersistAux_lookup_mem tl _ e h with h' | h'
        · exact Or.inl h'
        · exact Or.inr ⟨List.mem_cons_of_mem _ h'.1, h'.2⟩
      | true =>
        simp only [hjt, if_true] at h
        rcases loadPersistAux_lookup_mem tl _ e h with h' | h'
        · rcases alookup_aset_some_cases h' with ⟨rfl, rfl⟩ | h'
          · exact Or.inr ⟨List.mem_cons_self _ _, hai, hjt⟩
          · exact Or.inl h'
        · exact Or.inr ⟨List.mem_cons_of_mem _ h'.1, h'.2⟩

theorem loadPersist_lookup_mem {iv : Val} {L : List Rec} {e : Rec}
    (h : alookup (loadPersist L) iv = some e) :
    e ∈ L ∧ alookup e "ident" = some iv ∧ iv.truthy = true := by
  rcases loadPersistAux_lookup_mem L [] e h with h' | h'
  · simp [alookup] at h'
  · exact h'

theorem loadPersistAux_lookup_none {iv : Val} :
    ∀ (L : List Rec) (m : List (Val × Rec)),
      (∀ a ∈ L, ¬(alookup a "ident" = some iv ∧ iv.truthy = true)) →
      alookup (loadPersistAux m L) iv = alookup m iv
  | [], _, _ => rfl
  | a :: tl, m, hno => by
    unfold loadPersistAux
    rw [loadPersistAux_lookup_none tl _
      (fun b hb => hno b (List.mem_cons_of_mem _ hb))]
    cases hai : alookup a "ident" with
    | none => simp only
    | some jv =>
      simp only
      cases hjt : jv.truthy with
      | false => simp only [hjt, Bool.false_eq_true, if_false]
      | true =>
        simp only [hjt, if_true]
        have hne : jv ≠ iv := by
          intro hc
          subst hc
          exact hno a (List.mem_cons_self _ _) ⟨hai, hjt⟩
        rw [alookup_aset_ne _ (fun hc => hne hc.symm)]

theorem loadPersistAux_lookup_unique {iv : Val} {a : Rec}
    (ha : alookup a "ident" = some iv) (hat : iv.truthy = true) :
    ∀ (L : List Rec) (m : List (Val × Rec)), a ∈ L →
      (∀ b ∈ L, alookup b "ident" = some iv → b = a) →
      alookup (loadPersistAux m L) iv = some a
  | [], _, hmem, _ => absurd hmem (List.not_mem_nil a)
  | b :: tl, m, hmem, huniq => by
    unfold loadPersistAux
    by_cases hbk : alookup b "ident" = some iv
    · have hba : b = a := huniq b (List.mem_cons_self _ _) hbk
      subst hba
      simp only [ha, hat, if_true]
      by_cases htl : b ∈ tl
      · exact loadPersistAux_lookup_unique ha hat tl _ htl
          (fun c hc hck => huniq c (List.mem_cons_of_mem _ hc) hck)
      · rw [loadPersistAux_lookup_none tl _ (fun c hc hck => htl (by
          have hcb : c = b := huniq c (List.mem_cons_of_mem _ hc) hck.1
          exact hcb ▸ hc))]
        rw [alookup_aset_self]
    · have hba : a ≠ b := fun hc => hbk (hc ▸ ha)
      have hmem2 : a ∈ tl := by
        rcases List.mem_cons.mp hmem with hc | hc
        · exact absurd hc hba
        · exact hc
      exact loadPersistAux_lookup_unique ha hat tl _ hmem2
        (fun c hc hck => huniq c (List.mem_cons_of_mem _ hc) hck)

/-! ### Structure of one produced record -/

theorem alookup_nonEnrichRec_other {x : String} (hxm : x ≠ "metar_available")
    (hxr : x ≠ "runways") (ad existing : Rec) :
    alookup (nonEnrichRec ad existing) x = alookup ad x := by
  unfold nonEnrichRec
  cases alookup existing "metar_available" with
  | some mv =>
    dsimp only
    cases alookup existing "runways" with
    | some rv =>
      dsimp only
      by_cases hrt : rv.truthy = true
      · rw [if_pos hrt, alookup_aset_ne _ hxr, alookup_aset_ne _ hxm]
      · rw [if_neg hrt, alookup_aset_ne _ hxm]
    | none => rw [alookup_aset_ne _ hxm]
  | none =>
    dsimp only
    cases alookup existing "runways" with
    | some rv =>
      dsimp only
      by_cases hrt : rv.truthy = true
      · rw [if_pos hrt, alookup_aset_ne _ hxr, alookup_aset_ne _ hxm]
      · rw [if_neg hrt, alookup_aset_ne _ hxm]
    | none => rw [alookup_aset_ne _ hxm]

theorem nonEnrichRec_metar_isSome (ad existing : Rec) :
    (alookup (nonEnrichRec ad existing) "metar_available").isSome = true := by
  unfold nonEnrichRec
  cases alookup existing "metar_available" with
  | some mv =>
    dsimp only
    cases alookup existing "runways" with
    | some rv =>
      dsimp only
      by_cases hrt : rv.truthy = true
      · rw [if_pos hrt, alookup_aset_ne _ (by decide), alookup_aset_self]
        rfl
      · rw [if_neg hrt, alookup_aset_self]
        rfl
    | none =>
      rw [alookup_aset_self]
      rfl
  | none =>
    dsimp only
    cases alookup existing "runways" with
    | some rv =>
      dsimp only
      by_cases hrt : rv.truthy = true
      · rw [if_pos hrt, alookup_aset_ne _ (by decide), alookup_aset_self]
        rfl
      · rw [if_neg hrt, alookup_aset_self]
        rfl
    | none =>
      rw [alookup_aset_self]
      rfl

theorem nonEnrichRec_nodup {ad : Rec} (h : NodupKeys ad) (existing : Rec) :
    NodupKeys (nonEnrichRec ad existing) := by
  unfold nonEnrichRec
  cases alookup existing "metar_available" with
  | some mv =>
    dsimp only
    cases alookup existing "runways" with
    | some rv =>
      dsimp only
      by_cases hrt : rv.truthy = true
      · rw [if_pos hrt]
        exact nodup_akeys_aset (nodup_akeys_aset h _ _) _ _
      · rw [if_neg hrt]
        exact nodup_akeys_aset h _ _
    | none => exact nodup_akeys_aset h _ _
  | none =>
    dsimp only
    cases alookup existing "runways" with
    | some rv =>
      dsimp only
      by_cases hrt : rv.truthy = true
      · rw [if_pos hrt]
        exact nodup_akeys_aset (nodup_akeys_aset h _ _) _ _
      · rw [if_neg hrt]
        exact nodup_akeys_aset h _ _
    | none => exact nodup_akeys_aset h _ _

theorem nonEnrichRec_prefixKeys (ad existing : Rec) :
    akeys ad <+: akeys (nonEnrichRec ad existing) := by
  unfold nonEnrichRec
  cases alookup existing "metar_available" with
  | some mv =>
    dsimp only
    cases alookup existing "runways" with
    | some rv =>
      dsimp only
      by_cases hrt : rv.truthy = true
      · rw [if_pos hrt]
        exact (akeys_aset_isPrefix ad _ _).trans (akeys_aset_isPrefix _ _ _)
      · rw [if_neg hrt]
        exact akeys_aset_isPrefix ad _ _
    | none => exact akeys_aset_isPrefix ad _ _
  | none =>
    dsimp only
    cases alookup existing "runways" with
    | some rv =>
      dsimp only
      by_cases hrt : rv.truthy = true
      · rw [if_pos hrt]
        exact (akeys_aset_isPrefix ad _ _).trans (akeys_aset_isPrefix _ _ _)
      · rw [if_neg hrt]
        exact akeys_aset_isPrefix ad _ _
    | none => exact akeys_aset_isPrefix ad _ _

theorem mergeDetails_nodup {ad : Rec} (h : NodupKeys ad) (d : Rec) :
    NodupKeys (mergeDetails ad d) := by
  unfold mergeDetails
  cases d with
  | nil => exact h
  | cons hd tl =>
    dsimp only
    cases alookup (hd :: tl) "runways" with
    | some rv =>
      dsimp only
      by_cases hrt : rv.truthy = true
      · rw [if_pos hrt]
        exact nodup_akeys_aset (nodupKeys_update _ h) _ _
      · rw [if_neg hrt]
        exact nodupKeys_update _ h
    | none => exact nodupKeys_update _ h

theorem mergeDetails_prefixKeys (ad d : Rec) :
    akeys ad <+: akeys (mergeDetails ad d) := by
  unfold mergeDetails
  cases d with
  | nil => exact List.prefix_refl _
  | cons hd tl =>
    dsimp only
    cases alookup (hd :: tl) "runways" with
    | some rv =>
      dsimp only
      by_cases hrt : rv.truthy = true
      · rw [if_pos hrt]
        exact (akeys_update_isPrefix _ ad).trans (akeys_aset_isPrefix _ _ _)
      · rw [if_neg hrt]
        exact akeys_update_isPrefix _ ad
    | none => exact akeys_update_isPrefix _ ad

theorem alookup_mergeDetails_const {x : String} {w : Val} {d : Rec}
    (hall : ∀ v, (x, v) ∈ d → v = w) {ad : Rec}
    (ha : alookup ad x = some w) (hxr : x ≠ "runways") :
    alookup (mergeDetails ad d) x = some w := by
  unfold mergeDetails
  cases d with
  | nil => exact ha
  | cons hd tl =>
    dsimp only
    cases alookup (hd :: tl) "runways" with
    | some rv =>
      dsimp only
      by_cases hrt : rv.truthy = true
      · rw [if_pos hrt, alookup_aset_ne _ hxr]
        exact alookup_update_const _ _ hall ha
      · rw [if_neg hrt]
        exact alookup_update_const _ _ hall ha
    | none => exact alookup_update_const _ _ hall ha

theorem recOf_eq_of_ident_none {cols : List String} {r : Row}
    (h : identOf cols r = none) (k : Option String) (hD hM : Val → Option Val)
    (exA : List (Val × Rec)) :
    recOf k hD hM cols exA r = normalizeRow cols r := by
  unfold identOf at h
  unfold recOf
  cases hiv : alookup (normalizeRow cols r) "ident" with
  | none => rfl
  | some iv =>
    rw [hiv] at h
    dsimp only at h ⊢
    cases htr : iv.truthy with
    | false => simp only [htr, Bool.false_eq_true, if_false]
    | true =>
      rw [htr] at h
      simp at h

theorem recOf_ident (k : Option String) (hD hM : Val → Option Val)
    (cols : List String) (exA : List (Val × Rec)) (r : Row) (iv : Val)
    (hiv : alookup (normalizeRow cols r) "ident" = some iv)
    (htr : iv.truthy = true)
    (Hident : ∀ i v, ("ident", v) ∈ fetchPure k hD i → v = i)
    (HndEx : ∀ e, alookup exA iv = some e → NodupKeys e)
    (HidEx : ∀ e, alookup exA iv = some e → alookup e "ident" = some iv) :
    alookup (recOf k hD hM cols exA r) "ident" = some iv := by
  unfold recOf
  rw [hiv]
  simp only [htr, if_true]
  cases hse : shouldEnrichB (normalizeRow cols r) with
  | false =>
    simp only [Bool.false_eq_true, if_false]
    rw [alookup_nonEnrichRec_other (by decide) (by decide)]
    exact hiv
  | true =>
    simp only [if_true]
    have had1 : alookup
        (if reuseRunways ((alookup exA iv).getD []) = true then
          Rec.update (normalizeRow cols r) ((alookup exA iv).getD [])
        else mergeDetails (normalizeRow cols r) (fetchPure k hD iv))
        "ident" = some iv := by
      by_cases hrr : reuseRunways ((alookup exA iv).getD []) = true
      · rw [if_pos hrr]
        cases halo : alookup exA iv with
        | none =>
          rw [halo] at hrr
          simp [reuseRunways, alookup] at hrr
        | some e =>
          rw [halo] at hrr
          simp only [Option.getD_some] at hrr ⊢
          have hid := HidEx e halo
          have hmem : "ident" ∈ akeys e := alookup_isSome_iff.mp (by rw [hid]; rfl)
          rw [alookup_update_nodup _ _ (HndEx e halo) hmem, hid]
      · rw [if_neg hrr]
        exact alookup_mergeDetails_const (fun v hv => Hident iv v hv) hiv
          (by decide)
    cases hmv : alookup ((alookup exA iv).getD []) "metar_available" with
    | some mv =>
      rw [alookup_aset_ne _ (by decide)]
      exact had1
    | none =>
      rw [alookup_aset_ne _ (by decide)]
      exact had1

theorem recOf_metar_isSome (k : Option String) (hD hM : Val → Option Val)
    (cols : List String) (exA : List (Val × Rec)) (r : Row) (iv : Val)
    (hiv : alookup (normalizeRow cols r) "ident" = some iv)
    (htr : iv.truthy = true) :
    (alookup (recOf k hD hM cols exA r) "metar_available").isSome = true := by
  unfold recOf
  rw [hiv]
  simp only [htr, if_true]
  cases hse : shouldEnrichB (normalizeRow cols r) with
  | false =>
    simp only [Bool.false_eq_true, if_false]
    exact nonEnrichRec_metar_isSome _ _
  | true =>
    simp only [if_true]
    cases hmv : alookup ((alookup exA iv).getD []) "metar_available" with
    | some mv =>
      rw [alookup_aset_self]
      rfl
    | none =>
      rw [alookup_aset_self]
      rfl

theorem recOf_nodup (k : Option String) (hD hM : Val → Option Val)
    (cols : List String) (exA : List (Val × Rec)) (r : Row) :
    NodupKeys (recOf k hD hM cols exA r) := by
  unfold recOf
  cases hiv : alookup (normalizeRow cols r) "ident" with
  | none => exact nodupKeys_normalizeRow cols r
  | some iv =>
    dsimp only
    cases htr : iv.truthy with
    | false =>
      simp only [Bool.false_eq_true, if_false]
      exact nodupKeys_normalizeRow cols r
    | true =>
      simp only [if_true]
      cases hse : shouldEnrichB (normalizeRow cols r) with
      | false =>
        simp only [Bool.false_eq_true, if_false]
        exact nonEnrichRec_nodup (nodupKeys_normalizeRow cols r) _
      | true =>
        simp only [if_true]
        have had1 : NodupKeys
            (if reuseRunways ((alookup exA iv).getD []) = true then
              Rec.update (normalizeRow cols r) ((alookup exA iv).getD [])
            else mergeDetails (normalizeRow cols r) (fetchPure k hD iv)) := by
          by_cases hrr : reuseRunways ((alookup exA iv).getD []) = true
          · rw [if_pos hrr]
            exact nodupKeys_update _ (nodupKeys_normalizeRow cols r)
          · rw [if_neg hrr]
            exact mergeDetails_nodup (nodupKeys_normalizeRow cols r) _
        cases hmv : alookup ((alookup exA iv).getD []) "metar_available" with
        | some mv => exact nodup_akeys_aset had1 _ _
        | none => exact nodup_akeys_aset had1 _ _

theorem recOf_prefixKeys (k : Option String) (hD hM : Val → Option Val)
    (cols : List String) (exA : List (Val × Rec)) (r : Row) :
    akeys (normalizeRow cols r) <+: akeys (recOf k hD hM cols exA r) := by
  unfold recOf
  cases hiv : alookup (normalizeRow cols r) "ident" with
  | none => exact List.prefix_refl _
  | some iv =>
    dsimp only
    cases htr : iv.truthy with
    | false =>
      simp only [Bool.false_eq_true, if_false]
      exact List.prefix_refl _
    | true =>
      simp only [if_true]
      cases hse : shouldEnrichB (normalizeRow cols r) with
      | false =>
        simp only [Bool.false_eq_true, if_false]
        exact nonEnrichRec_prefixKeys _ _
      | true =>
        simp only [if_true]
        have had1 : akeys (normalizeRow cols r) <+: akeys
            (if reuseRunways ((alookup exA iv).getD []) = true then
              Rec.update (normalizeRow cols r) ((alookup exA iv).getD [])
            else mergeDetails (normalizeRow cols r) (fetchPure k hD iv)) := by
          by_cases hrr : reuseRunways ((alookup exA iv).getD []) = true
          · rw [if_pos hrr]
            exact akeys_update_isPrefix _ _
          · rw [if_neg hrr]
            exact mergeDetails_prefixKeys _ _
        cases hmv : alookup ((alookup exA iv).getD []) "metar_available" with
        | some mv => exact had1.trans (akeys_aset_isPrefix _ _ _)
        | none => exact had1.trans (akeys_aset_isPrefix _ _ _)

theorem pairwise_unique_vals {α β : Type} {l : List α} {f : α → Option β}
    (h : l.Pairwise (fun r1 r2 => ∀ iv, f r1 = some iv → f r2 ≠ some iv)) :
    ∀ r ∈ l, ∀ r' ∈ l, ∀ iv, f r = some iv → f r' = some iv → r = r' := by
  induction l with
  | nil => intro r hr; simp at hr
  | cons x tl ih =>
    rw [List.pairwise_cons] at h
    intro r hr r' hr' iv h1 h2
    rcases List.mem_cons.mp hr with h3 | h3
    · rcases List.mem_cons.mp hr' with h4 | h4
      · rw [h3, h4]
      · subst h3
        exact absurd h2 (h.1 r' h4 iv h1)
    · rcases List.mem_cons.mp hr' with h4 | h4
      · subst h4
        exact absurd h1 (h.1 r h3 iv h2)
      · exact ih h.2 r h3 r' h4 iv h1 h2

theorem identOf_eq_some {cols : List String} {r : Row} {iv : Val}
    (h : identOf cols r = some iv) :
    alookup (normalizeRow cols r) "ident" = some iv ∧ iv.truthy = true := by
  unfold identOf at h
  cases hiv : alookup (normalizeRow cols r) "ident" with
  | none =>
    rw [hiv] at h
    cases h
  | some jv =>
    rw [hiv] at h
    dsimp only at h
    cases htr : jv.truthy with
    | false =>
      rw [htr] at h
      simp at h
    | true =>
      rw [htr] at h
      simp only [if_true, Option.some.injEq] at h
      subst h
      exact ⟨rfl, htr⟩

theorem identOf_eq_some_intro {cols : List String} {r : Row} {iv : Val}
    (hiv : alookup (normalizeRow cols r) "ident" = some iv)
    (htr : iv.truthy = true) : identOf cols r = some iv := by
  unfold identOf
  rw [hiv]
  dsimp only
  rw [htr]
  simp

theorem recOf_enrich_shape (k : Option String) (hD hM : Val → Option Val)
    (cols : List String) (exA : List (Val × Rec)) (r : Row) (iv : Val)
    (hiv : alookup (normalizeRow cols r) "ident" = some iv)
    (htr : iv.truthy = true)
    (hse : shouldEnrichB (normalizeRow cols r) = true) :
    recOf k hD hM cols exA r =
      aset (if reuseRunways ((alookup exA iv).getD []) = true then
          Rec.update (normalizeRow cols r) ((alookup exA iv).getD [])
        else mergeDetails (normalizeRow cols r) (fetchPure k hD iv))
        "metar_available"
        (match alookup ((alookup exA iv).getD []) "metar_available" with
          | some mv => mv
          | none => Val.vbool (check_metar_available hM iv)) := by
  unfold recOf
  rw [hiv]
  simp only [htr, hse, if_true]
  cases hmv : alookup ((alookup exA iv).getD []) "metar_available" with
  | some mv => rfl
  | none => rfl

theorem recOf_nonEnrich_shape (k : Option String) (hD hM : Val → Option Val)
    (cols : List String) (exA : List (Val × Rec)) (r : Row) (iv : Val)
    (hiv : alookup (normalizeRow cols r) "ident" = some iv)
    (htr : iv.truthy = true)
    (hse : shouldEnrichB (normalizeRow cols r) = false) :
    recOf k hD hM cols exA r =
      nonEnrichRec (normalizeRow cols r) ((alookup exA iv).getD []) := by
  unfold recOf
  rw [hiv]
  simp only [htr, hse, Bool.false_eq_true, if_false, if_true]

theorem nonEnrichRec_idem {ad : Rec} (hadr : alookup ad "runways" = none)
    (ex : Rec) :
    nonEnrichRec ad (nonEnrichRec ad ex) = nonEnrichRec ad ex := by
  have key : ∀ w : Val,
      nonEnrichRec ad
        (match alookup ex "runways" with
          | some rv => if rv.truthy = true then
              aset (aset ad "metar_available" w) "runways" rv
            else aset ad "metar_available" w
          | none => aset ad "metar_available" w) =
      (match alookup ex "runways" with
        | some rv => if rv.truthy = true then
            aset (aset ad "metar_available" w) "runways" rv
          else aset ad "metar_available" w
        | none => aset ad "metar_available" w) := by
    intro w
    cases hrw : alookup ex "runways" with
    | some rv =>
      dsimp only
      by_cases hrt : rv.truthy = true
      · rw [if_pos hrt]
        unfold nonEnrichRec
        have hm : alookup (aset (aset ad "metar_available" w) "runways" rv)
            "metar_available" = some w := by
          rw [alookup_aset_ne _ (by decide), alookup_aset_self]
        have hr2 : alookup (aset (aset ad "metar_available" w) "runways" rv)
            "runways" = some rv := alookup_aset_self _ _ _
        rw [hm, hr2]
        dsimp only
        rw [if_pos hrt]
      · rw [if_neg hrt]
        unfold nonEnrichRec
        have hm : alookup (aset ad "metar_available" w) "metar_available" =
            some w := alookup_aset_self _ _ _
        have hr2 : alookup (aset ad "metar_available" w) "runways" = none := by
          rw [alookup_aset_ne _ (by decide), hadr]
        rw [hm, hr2]
    | none =>
      dsimp only
      unfold nonEnrichRec
      have hm : alookup (aset ad "metar_available" w) "metar_available" =
          some w := alookup_aset_self _ _ _
      have hr2 : alookup (aset ad "metar_available" w) "runways" = none := by
        rw [alookup_aset_ne _ (by decide), hadr]
      rw [hm, hr2]
  unfold nonEnrichRec
  cases hmv : alookup ex "metar_available" with
  | some mv => exact key mv
  | none => exact key (Val.vbool false)

theorem foldl_statsAdd_mf :
    ∀ (rows : List Row) (f : Row → Stats) (s : Stats),
      (rows.foldl (fun acc r => statsAdd acc (f r)) s).metar_fetched =
        s.metar_fetched + (rows.map (fun r => (f r).metar_fetched)).sum
  | [], _, _ => by simp
  | r :: tl, f, s => by
    rw [List.foldl_cons, foldl_statsAdd_mf tl f, List.map_cons, List.sum_cons]
    unfold statsAdd
    dsimp only
    omega

theorem foldl_statsAdd_af :
    ∀ (rows : List Row) (f : Row → Stats) (s : Stats),
      (rows.foldl (fun acc r => statsAdd acc (f r)) s).airportdb_fetched =
        s.airportdb_fetched +
          (rows.map (fun r => (f r).airportdb_fetched)).sum
  | [], _, _ => by simp
  | r :: tl, f, s => by
    rw [List.foldl_cons, foldl_statsAdd_af tl f, List.map_cons, List.sum_cons]
    unfold statsAdd
    dsimp only
    omega

theorem roundtrip_row (k : Option String) (hD hM : Val → Option Val)
    (cols : List String) (P0c : List Rec) (rows : List Row)
    (Hnd0 : ∀ a ∈ P0c, NodupKeys a)
    (Hident : ∀ i v, ("ident", v) ∈ fetchPure k hD i → v = i)
    (Huniq : rows.Pairwise (fun r1 r2 => ∀ iv, identOf cols r1 = some iv →
      identOf cols r2 ≠ some iv))
    (r : Row) (hr : r ∈ rows) :
    recOf k hD hM cols
        (loadPersist (rows.map (recOf k hD hM cols (loadPersist P0c)))) r =
      recOf k hD hM cols (loadPersist P0c) r ∧
    (stepDelta cols
        (loadPersist (rows.map (recOf k hD hM cols (loadPersist P0c)))) r).metar_fetched = 0 ∧
    ((∀ b ∈ rows.map (recOf k hD hM cols (loadPersist P0c)),
        optTruthy (alookup b "ident") = true → reuseRunways b = true) →
      (stepDelta cols
        (loadPersist (rows.map (recOf k hD hM cols (loadPersist P0c)))) r).airportdb_fetched = 0) := by
  have HndEx1 : ∀ iv e, alookup (loadPersist P0c) iv = some e → NodupKeys e :=
    fun iv e he => Hnd0 e (loadPersist_lookup_mem he).1
  have HidEx1 : ∀ iv e, alookup (loadPersist P0c) iv = some e →
      alookup e "ident" = some iv :=
    fun iv e he => (loadPersist_lookup_mem he).2.1
  cases hidO : identOf cols r with
  | none =>
    refine ⟨?_, ?_, fun _ => ?_⟩
    · rw [recOf_eq_of_ident_none hidO, recOf_eq_of_ident_none hidO]
    · unfold identOf at hidO
      unfold stepDelta
      cases hiv : alookup (normalizeRow cols r) "ident" with
      | none => rfl
      | some jv =>
        rw [hiv] at hidO
        dsimp only at hidO ⊢
        cases htr : jv.truthy with
        | false => simp only [htr, Bool.false_eq_true, if_false]
        | true =>
          rw [htr] at hidO
          simp at hidO
    · unfold identOf at hidO
      unfold stepDelta
      cases hiv : alookup (normalizeRow cols r) "ident" with
      | none => rfl
      | some jv =>
        rw [hiv] at hidO
        dsimp only at hidO ⊢
        cases htr : jv.truthy with
        | false => simp only [htr, Bool.false_eq_true, if_false]
        | true =>
          rw [htr] at hidO
          simp at hidO
  | some iv =>
    obtain ⟨hiv, htr⟩ := identOf_eq_some hidO
    have hrid : alookup (recOf k hD hM cols (loadPersist P0c) r) "ident" =
        some iv :=
      recOf_ident k hD hM cols (loadPersist P0c) r iv hiv htr Hident
        (HndEx1 iv) (HidEx1 iv)
    have hmemb : recOf k hD hM cols (loadPersist P0c) r ∈
        rows.map (recOf k hD hM cols (loadPersist P0c)) :=
      List.mem_map_of_mem _ hr
    have huniqb : ∀ b ∈ rows.map (recOf k hD hM cols (loadPersist P0c)),
        alookup b "ident" = some iv →
        b = recOf k hD hM cols (loadPersist P0c) r := by
      intro b hb hbk
      obtain ⟨r', hr', hbr⟩ := List.mem_map.mp hb
      cases hidO' : identOf cols r' with
      | none =>
        rw [← hbr, recOf_eq_of_ident_none hidO'] at hbk
        have hcontra : identOf cols r' = some iv :=
          identOf_eq_some_intro hbk htr
        rw [hidO'] at hcontra
        cases hcontra
      | some jv =>
        obtain ⟨hiv', htr'⟩ := identOf_eq_some hidO'
        have hbid : alookup b "ident" = some jv := by
          rw [← hbr]
          exact recOf_ident k hD hM cols (loadPersist P0c) r' jv hiv' htr'
            Hident (HndEx1 jv) (HidEx1 jv)
        rw [hbk] at hbid
        injection hbid with hji
        subst hji
        have hrr' : r' = r :=
          pairwise_unique_vals Huniq r' hr' r hr iv hidO' hidO
        rw [← hbr, hrr']
    have hA : alookup
        (loadPersist (rows.map (recOf k hD hM cols (loadPersist P0c)))) iv =
        some (recOf k hD hM cols (loadPersist P0c) r) :=
      loadPersistAux_lookup_unique hrid htr _ [] hmemb huniqb
    have hms := recOf_metar_isSome k hD hM cols (loadPersist P0c) r iv hiv htr
    refine ⟨?_, ?_, ?_⟩
    · cases hse : shouldEnrichB (normalizeRow cols r) with
      | false =>
        rw [recOf_nonEnrich_shape k hD hM cols
          (loadPersist (rows.map (recOf k hD hM cols (loadPersist P0c))))
          r iv hiv htr hse]
        rw [hA]
        simp only [Option.getD_some]
        rw [recOf_nonEnrich_shape k hD hM cols (loadPersist P0c) r iv hiv htr
          hse]
        exact nonEnrichRec_idem (normalizeRow_runways cols r) _
      | true =>
        rw [recOf_enrich_shape k hD hM cols
          (loadPersist (rows.map (recOf k hD hM cols (loadPersist P0c))))
          r iv hiv htr hse]
        rw [hA]
        simp only [Option.getD_some]
        have hshape1 := recOf_enrich_shape k hD hM cols (loadPersist P0c) r
          iv hiv htr hse
        have hmet : alookup (recOf k hD hM cols (loadPersist P0c) r)
            "metar_available" =
            some (match alookup ((alookup (loadPersist P0c) iv).getD [])
                "metar_available" with
              | some mv => mv
              | none => Val.vbool (check_metar_available hM iv)) := by
          rw [hshape1, alookup_aset_self]
        rw [hmet]
        dsimp only
        cases hrr2 : reuseRunways (recOf k hD hM cols (loadPersist P0c) r) with
        | true =>
          simp only [if_true]
          rw [update_eq_self (recOf_nodup k hD hM cols (loadPersist P0c) r)
            (recOf_prefixKeys k hD hM cols (loadPersist P0c) r)]
          exact aset_eq_self_of_alookup hmet
        | false =>
          simp only [Bool.false_eq_true, if_false]
          by_cases hrr1 : reuseRunways ((alookup (loadPersist P0c) iv).getD [])
              = true
          · exfalso
            cases halo : alookup (loadPersist P0c) iv with
            | none =>
              rw [halo] at hrr1
              simp [reuseRunways, alookup] at hrr1
            | some e =>
              rw [halo] at hrr1 hshape1
              simp only [Option.getD_some] at hrr1 hshape1
              rw [if_pos hrr1] at hshape1
              have hnde : NodupKeys e := HndEx1 iv e halo
              have hrr1e : optTruthy (alookup e "runways") = true := by
                rw [← reuseRunways_eq]
                exact hrr1
              have hmemr : "runways" ∈ akeys e :=
                alookup_isSome_iff.mp (optTruthy_isSome hrr1e)
              have hc : reuseRunways (recOf k hD hM cols (loadPersist P0c) r)
                  = true := by
                rw [reuseRunways_eq, hshape1, alookup_aset_ne _ (by decide),
                  alookup_update_nodup _ _ hnde hmemr]
                exact hrr1e
              rw [hc] at hrr2
              exact Bool.noConfusion hrr2
          · have hrr1' : reuseRunways ((alookup (loadPersist P0c) iv).getD [])
                = false := Bool.of_not_eq_true hrr1
            rw [hshape1, hrr1']
            simp only [Bool.false_eq_true, if_false]
    · unfold stepDelta
      rw [hiv]
      simp only [htr, if_true]
      cases hse : shouldEnrichB (normalizeRow cols r) with
      | false => simp only [Bool.false_eq_true, if_false]
      | true =>
        simp only [if_true]
        rw [hA]
        simp only [Option.getD_some]
        simp [hms]
    · intro Hrw
      have hrw1 : reuseRunways (recOf k hD hM cols (loadPersist P0c) r) =
          true :=
        Hrw _ hmemb (by rw [hrid]; simp [optTruthy, htr])
      unfold stepDelta
      rw [hiv]
      simp only [htr, if_true]
      cases hse : shouldEnrichB (normalizeRow cols r) with
      | false => simp only [Bool.false_eq_true, if_false]
      | true =>
        simp only [if_true]
        rw [hA]
        simp only [Option.getD_some]
        simp [hrw1]

/-- C6 amended: re-running over the same source rows with the written
datasets loaded as persisted state reproduces the first run's
`countries_data` exactly and issues no weather fetch (every weather
decision is a skip); the details fetch counter is zero for a country
only under the extra proviso that every first-run record with a usable
identifier ended up with a truthy runway list — a first-run details
failure (empty payload) leaves the record without runways and forces a
re-fetch, so the claim's unconditional all-skip part is false.
Hypotheses: persisted records have unique keys, the details payload
never rebinds `ident` to a different value, and no two rows of a
country share a usable identifier. -/
theorem claim6_amended (k : Option String) (hD hM : Val → Option Val)
    (P0 : Val → List Rec) (t : Table)
    (Hnd0 : ∀ c, ∀ a ∈ P0 c, NodupKeys a)
    (Hident : ∀ i v, ("ident", v) ∈ fetchPure k hD i → v = i)
    (Huniq : ∀ c, (countryRowsOf t c).Pairwise (fun r1 r2 => ∀ iv,
        identOf t.cols r1 = some iv → identOf t.cols r2 ≠ some iv)) :
    (process_airports k hD hM
        (savedAirports (process_airports k hD hM P0 t)) t).countries_data =
      (process_airports k hD hM P0 t).countries_data ∧
    (∀ c s, alookup (process_airports k hD hM
          (savedAirports (process_airports k hD hM P0 t)) t).api_stats c =
        some s →
      s.metar_fetched = 0 ∧
      ((∀ b ∈ runBucket k hD hM P0 t c,
          optTruthy (alookup b "ident") = true → reuseRunways b = true) →
        s.airportdb_fetched = 0)) := by
  have h1 := run_components k hD hM P0 t
  have h2 := run_components k hD hM
    (savedAirports (process_airports k hD hM P0 t)) t
  have hP1 : ∀ c ∈ orderedCountries t,
      savedAirports (process_airports k hD hM P0 t) c =
        (countryRowsOf t c).map (recOf k hD hM t.cols (loadPersist (P0 c))) := by
    intro c hc
    unfold savedAirports
    rw [h1.1, foldl_aset_lookup (runBucket k hD hM P0 t), if_pos hc]
    rfl
  constructor
  · rw [h2.1, h1.1]
    refine foldl_aset_congr _ _ ?_
    intro c hc
    unfold runBucket
    rw [hP1 c hc]
    exact List.map_congr_left (fun r hr =>
      (roundtrip_row k hD hM t.cols (P0 c) (countryRowsOf t c)
        (Hnd0 c) Hident (Huniq c) r hr).1)
  · intro c s hs
    rw [h2.2, foldl_aset_lookup
      (runStats (savedAirports (process_airports k hD hM P0 t)) t)] at hs
    by_cases hc : c ∈ orderedCountries t
    · rw [if_pos hc] at hs
      injection hs with hs
      subst hs
      refine ⟨?_, fun Hrw => ?_⟩
      · unfold runStats
        rw [foldl_statsAdd_mf]
        have hz : ∀ x ∈ ((countryRowsOf t c).map fun r =>
            (stepDelta t.cols (loadPersist
              (savedAirports (process_airports k hD hM P0 t) c))
                r).metar_fetched), x = 0 := by
          intro x hx
          rcases List.mem_map.mp hx with ⟨r, hr, rfl⟩
          rw [hP1 c hc]
          exact (roundtrip_row k hD hM t.cols (P0 c) (countryRowsOf t c)
            (Hnd0 c) Hident (Huniq c) r hr).2.1
        rw [List.sum_eq_zero hz]
        rfl
      · unfold runStats
        rw [foldl_statsAdd_af]
        have hz : ∀ x ∈ ((countryRowsOf t c).map fun r =>
            (stepDelta t.cols (loadPersist
              (savedAirports (process_airports k hD hM P0 t) c))
                r).airportdb_fetched), x = 0 := by
          intro x hx
          rcases List.mem_map.mp hx with ⟨r, hr, rfl⟩
          rw [hP1 c hc]
          exact (roundtrip_row k hD hM t.cols (P0 c) (countryRowsOf t c)
            (Hnd0 c) Hident (Huniq c) r hr).2.2 Hrw
        rw [List.sum_eq_zero hz]
        rfl
    · rw [if_neg hc] at hs
      exact Option.noConfusion hs

theorem claim6_amended_witness :
    (process_airports (some "testkey") scDetails scMetar
        (savedAirports scRun) scTable).countries_data =
      scRun.countries_data ∧
    alookup (process_airports (some "testkey") scDetails scMetar
        (savedAirports scRun) scTable).api_stats (Val.str "FR") =
      some ⟨0, 1, 0, 1⟩ := by
  have hpw : (scTable.rows.filter enrichableRow).Pairwise
      (fun r1 r2 => ∀ iv, identOf scTable.cols r1 = some iv →
        identOf scTable.cols r2 ≠ some iv) := by
    have he : scTable.rows.filter enrichableRow = [scRowEGLL, scRowLFPG] := by
      decide
    rw [he]
    refine List.pairwise_cons.mpr ⟨?_, List.pairwise_singleton _ _⟩
    intro r hr iv h1 h2
    rcases List.mem_singleton.mp hr with rfl
    have e1 : identOf scTable.cols scRowEGLL = some (Val.str "EGLL") := by
      decide
    rw [e1] at h1
    injection h1 with h1
    subst h1
    exact absurd h2 (by decide)
  have H := claim6_amended (some "testkey") scDetails scMetar
    (fun _ => []) scTable
    (fun c a ha => absurd ha (List.not_mem_nil a))
    (fun i v h => by simp [fetchPure, scDetails, truthyKey, ObjList.toList] at h)
    (fun c => List.Pairwise.sublist (List.filter_sublist _) hpw)
  exact ⟨H.1, by decide⟩

/-- C6 counterexample: with a failing details provider, the first run's
FR record gets no runways, so the round-trip second run re-fetches:
its FR counters are `{metar_fetched 0, metar_skipped 1,
airportdb_fetched 1, airportdb_skipped 0}` — the details fetch counter
is 1, not 0, refuting the claim's all-skip part. -/
theorem claim6_counterexample :
    alookup (process_airports (some "testkey") (fun _ => none) scMetar
        (savedAirports (process_airports (some "testkey") (fun _ => none)
          scMetar (fun _ => []) scTable)) scTable).api_stats
      (Val.str "FR") = some ⟨0, 1, 1, 0⟩ ∧
    (⟨0, 1, 1, 0⟩ : Stats).airportdb_fetched ≠ 0 :=
  ⟨by decide, by decide⟩
